import Mathlib

/-!
Shallow embedding of `main.go` of chef-ssh, and what it guarantees.

`main.go` rewrites the destination argument of an `ssh` command line: when the
destination host ends with the configured domain tag and then with `.node` or
`.role`, the host is replaced by an IP address fetched from a Chef server, and the
process image is replaced by `ssh`.

The embedding has three layers.

* The Go standard-library functions that `main.go` calls on strings
  (`strings.HasSuffix`, `net/url.Parse`, `net.SplitHostPort`, `net.JoinHostPort`)
  are transcribed from the Go standard library (Go 1.21), restricted to the
  fields of `url.URL` that `main.go` reads or that decide whether parsing fails.
* Everything outside the process (environment, file system, Chef server, `exec`)
  is a `World` of answers, and a run of `main` is the list of calls it made
  together with the way the process ended.
* `main`, `getLookupType`, `formatURL`, `joinHostPort`, `ssh`,
  `configFromEnv` follow `main.go` statement by statement.

A Go string is a sequence of bytes. Here it is a list of characters, one
character per byte; every literal of the program is ASCII.
-/

namespace ChefSSH

/-! ## Go strings -/

/-- A Go string: a sequence of bytes, one `Char` per byte. -/
abbrev GoString := List Char

/-- The slice expression `s[:n]`; `none` is the run-time fault
`slice bounds out of range`, raised when `n > len(s)`. -/
def sliceTo (s : GoString) (n : Nat) : Option GoString :=
  if n ≤ s.length then some (s.take n) else none

/-- Go `strings.HasPrefix`: `len(s) >= len(prefix) && s[:len(prefix)] == prefix`. -/
def HasPrefix (s pre : GoString) : Bool :=
  decide (pre.length ≤ s.length) && (s.take pre.length == pre)

/-- Go `strings.HasSuffix`: `len(s) >= len(suffix) && s[len(s)-len(suffix):] == suffix`. -/
def HasSuffix (s suffix : GoString) : Bool :=
  decide (suffix.length ≤ s.length) && (s.drop (s.length - suffix.length) == suffix)

/-- Go `strings.Index`: the position of the first occurrence of `sep` in `s`
(`none` for Go's `-1`). -/
def Index : GoString → GoString → Option Nat
  | [], sep => if sep.isEmpty then some 0 else none
  | c :: t, sep => if HasPrefix (c :: t) sep then some 0 else (Index t sep).map (· + 1)

/-- Go `strings.LastIndex`: the position of the last occurrence of `sep` in `s`
(`none` for Go's `-1`). -/
def LastIndex : GoString → GoString → Option Nat
  | [], sep => if sep.isEmpty then some 0 else none
  | c :: t, sep =>
    match LastIndex t sep with
    | some i => some (i + 1)
    | none => if HasPrefix (c :: t) sep then some 0 else none

/-- Go `strings.Contains`: `Index(s, substr) >= 0`. -/
def Contains (s substr : GoString) : Bool := (Index s substr).isSome

/-- Go `strings.Count` for a one-byte separator. -/
def Count (s : GoString) (c : Char) : Nat := s.count c

/-- Go `strings.Cut`: the text before and after the first `sep`, and whether
`sep` was found. -/
def Cut (s sep : GoString) : GoString × GoString × Bool :=
  match Index s sep with
  | some i => (s.take i, s.drop (i + sep.length), true)
  | none => (s, [], false)

/-- The byte `c` lies in the closed range `lo..hi`. -/
def inRange (lo hi c : Char) : Bool :=
  decide (lo.toNat ≤ c.toNat) && decide (c.toNat ≤ hi.toNat)

/-- The test `'a' <= c && c <= 'z' || 'A' <= c && c <= 'Z'`. -/
def isLetter (c : Char) : Bool := inRange 'a' 'z' c || inRange 'A' 'Z' c

/-- The test `'0' <= c && c <= '9'`. -/
def isDigit (c : Char) : Bool := inRange '0' '9' c

/-- Go `strings.ToLower` on ASCII text (its only use here is on a URL scheme,
which `getScheme` restricts to ASCII letters, digits, `+`, `-` and `.`). -/
def ToLower (s : GoString) : GoString :=
  s.map (fun c => if inRange 'A' 'Z' c then Char.ofNat (c.toNat + 32) else c)

/-! ## `net/url` -/

/-- The `encoding` modes of `net/url`. -/
inductive encoding
  | encodePath
  | encodePathSegment
  | encodeHost
  | encodeZone
  | encodeUserPassword
  | encodeQueryComponent
  | encodeFragment
  deriving DecidableEq, Repr

/-- The errors of `net/url` parsing: `EscapeError`, `InvalidHostError`, and
the ones built by `errors.New` or `fmt.Errorf`. -/
inductive URLError
  | EscapeError (s : GoString)
  | InvalidHostError (s : GoString)
  | other (text : String)
  deriving DecidableEq, Repr

/-- `net/url.ishex`. -/
def ishex (c : Char) : Bool :=
  inRange '0' '9' c || inRange 'a' 'f' c || inRange 'A' 'F' c

/-- `net/url.unhex`, the value of a hexadecimal digit (0 for any other byte). -/
def unhex (c : Char) : Nat :=
  if inRange '0' '9' c then c.toNat - '0'.toNat
  else if inRange 'a' 'f' c then c.toNat - 'a'.toNat + 10
  else if inRange 'A' 'F' c then c.toNat - 'A'.toNat + 10
  else 0

/-- `net/url.shouldEscape`: whether byte `c` must be escaped in the part of a
URL that `mode` names. -/
def shouldEscape (c : Char) (mode : encoding) : Bool :=
  if isLetter c || isDigit c then false
  else if (mode == .encodeHost || mode == .encodeZone) &&
      "!$&'()*+,;=:[]<>\"".toList.contains c then false
  else if "-_.~".toList.contains c then false
  else if "$&+,/:;=?@".toList.contains c then
    match mode with
    | .encodePath => c == '?'
    | .encodePathSegment => c == '/' || c == ';' || c == ',' || c == '?'
    | .encodeUserPassword => c == '@' || c == '/' || c == '?' || c == ':'
    | .encodeQueryComponent => true
    | .encodeFragment => false
    | .encodeHost => true
    | .encodeZone => true
  else if mode == .encodeFragment && "!()*".toList.contains c then false
  else true

/-- The first loop of `net/url.unescape`: counts the `%` escapes (`n`), checks
that each is well formed and allowed in `mode`, and records `hasPlus`. -/
def unescapeScan (mode : encoding) : GoString → Nat → Bool → Except URLError (Nat × Bool)
  | [], n, hasPlus => .ok (n, hasPlus)
  | c :: rest, n, hasPlus =>
    if c = '%' then
      match rest with
      | a :: b :: rest2 =>
        if !ishex a || !ishex b then .error (.EscapeError ((c :: rest).take 3))
        else if mode == .encodeHost && decide (unhex a < 8) && [c, a, b] != "%25".toList then
          .error (.EscapeError [c, a, b])
        else if mode == .encodeZone && ([c, a, b] != "%25".toList &&
            unhex a * 16 + unhex b != ' '.toNat &&
            shouldEscape (Char.ofNat (unhex a * 16 + unhex b)) .encodeHost) then
          .error (.EscapeError [c, a, b])
        else unescapeScan mode rest2 (n + 1) hasPlus
      | _ => .error (.EscapeError ((c :: rest).take 3))
    else if c = '+' then
      unescapeScan mode rest n (mode == .encodeQueryComponent)
    else if (mode == .encodeHost || mode == .encodeZone) && decide (c.toNat < 0x80) &&
        shouldEscape c .encodeHost then
      .error (.InvalidHostError [c])
    else unescapeScan mode rest n hasPlus

/-- The second loop of `net/url.unescape`: replaces each `%XX` by the byte it
names (and `+` by a space in a query component). It runs only on text the
first loop accepted, so every `%` is followed by two bytes. -/
def unescapeBuild (mode : encoding) : GoString → GoString
  | [] => []
  | c :: rest =>
    if c = '%' then
      match rest with
      | a :: b :: rest2 => Char.ofNat (unhex a * 16 + unhex b) :: unescapeBuild mode rest2
      | _ => []
    else if c = '+' then
      (if mode == .encodeQueryComponent then ' ' else '+') :: unescapeBuild mode rest
    else c :: unescapeBuild mode rest

/-- `net/url.unescape`. -/
def unescape (s : GoString) (mode : encoding) : Except URLError GoString :=
  match unescapeScan mode s 0 false with
  | .error e => .error e
  | .ok (n, hasPlus) => if n == 0 && !hasPlus then .ok s else .ok (unescapeBuild mode s)

/-- `net/url.stringContainsCTLByte`: some byte is `< ' '` or is `0x7f`. -/
def stringContainsCTLByte (s : GoString) : Bool :=
  s.any (fun b => decide (b.toNat < ' '.toNat) || b.toNat == 0x7f)

/-- The loop of `net/url.getScheme`, at byte `i` of `rawURL` with `rest` still
to read. -/
def getSchemeLoop (rawURL : GoString) : GoString → Nat → Except URLError (GoString × GoString)
  | [], _ => .ok ([], rawURL)
  | c :: rest, i =>
    if isLetter c then getSchemeLoop rawURL rest (i + 1)
    else if isDigit c || c == '+' || c == '-' || c == '.' then
      if i = 0 then .ok ([], rawURL) else getSchemeLoop rawURL rest (i + 1)
    else if c == ':' then
      if i = 0 then .error (.other "missing protocol scheme")
      else .ok (rawURL.take i, rawURL.drop (i + 1))
    else .ok ([], rawURL)

/-- `net/url.getScheme`: splits `scheme:rest`; the scheme is empty when the
text does not start with one. -/
def getScheme (rawURL : GoString) : Except URLError (GoString × GoString) :=
  getSchemeLoop rawURL rawURL 0

/-- `net/url.validUserinfo`. A byte outside ASCII is part of a rune outside
the accepted set, so the test by runes is a test by bytes. -/
def validUserinfo (s : GoString) : Bool :=
  s.all (fun r => isLetter r || isDigit r || "-._:~!$&'()*+,;=%@".toList.contains r)

/-- `net/url.validOptionalPort`: `port` is empty or `:` followed by digits. -/
def validOptionalPort (port : GoString) : Bool :=
  match port with
  | [] => true
  | c :: digits => if c != ':' then false else digits.all (fun b => isDigit b)

/-- `net/url.Userinfo`. -/
structure Userinfo where
  username : GoString
  password : GoString
  passwordSet : Bool
  deriving DecidableEq, Repr

/-- `net/url.URL`, without `RawPath` and `RawFragment` (hints for
re-encoding that parsing cannot fail on and `main.go` never reads). -/
structure URL where
  Scheme : GoString
  Opaque : GoString
  User : Option Userinfo
  Host : GoString
  Path : GoString
  OmitHost : Bool
  ForceQuery : Bool
  RawQuery : GoString
  Fragment : GoString
  deriving DecidableEq, Repr

/-- `(*Userinfo).Username`, which is `""` on a nil receiver. -/
def Username (u : Option Userinfo) : GoString :=
  match u with
  | none => []
  | some ui => ui.username

/-- `net/url.parseHost` of Go 1.21: checks `host[:port]` and undoes the
escapes of the host. A host in brackets may carry a zone after `%25`. This
release accepts any text between the brackets and a `[` inside a host; later
releases of `net/url` reject a bracketed host that is not an IPv6 literal. -/
def parseHost (host : GoString) : Except URLError GoString :=
  let plain : Except URLError GoString := unescape host .encodeHost
  if HasPrefix host "[".toList then
    match LastIndex host "]".toList with
    | none => .error (.other "missing ']' in host")
    | some i =>
      if !validOptionalPort (host.drop (i + 1)) then .error (.other "invalid port after host")
      else
        match Index (host.take i) "%25".toList with
        | some zone =>
          match unescape (host.take zone) .encodeHost with
          | .error e => .error e
          | .ok host1 =>
            match unescape ((host.take i).drop zone) .encodeZone with
            | .error e => .error e
            | .ok host2 =>
              match unescape (host.drop i) .encodeHost with
              | .error e => .error e
              | .ok host3 => .ok (host1 ++ host2 ++ host3)
        | none => plain
  else
    match LastIndex host ":".toList with
    | some i =>
      if !validOptionalPort (host.drop i) then .error (.other "invalid port after host")
      else plain
    | none => plain

/-- `net/url.parseAuthority`: splits `[userinfo@]host` at the last `@`. -/
def parseAuthority (authority : GoString) : Except URLError (Option Userinfo × GoString) :=
  let i := LastIndex authority "@".toList
  let hostText := match i with
    | none => authority
    | some i => authority.drop (i + 1)
  match parseHost hostText with
  | .error e => .error e
  | .ok host =>
    match i with
    | none => .ok (none, host)
    | some i =>
      let userinfo := authority.take i
      if !validUserinfo userinfo then .error (.other "net/url: invalid userinfo")
      else if !Contains userinfo ":".toList then
        match unescape userinfo .encodeUserPassword with
        | .error e => .error e
        | .ok userinfo => .ok (some ⟨userinfo, [], false⟩, host)
      else
        let (username, password, _) := Cut userinfo ":".toList
        match unescape username .encodeUserPassword with
        | .error e => .error e
        | .ok username =>
          match unescape password .encodeUserPassword with
          | .error e => .error e
          | .ok password => .ok (some ⟨username, password, true⟩, host)

/-- `(*URL).setPath`: fails exactly when the path has a malformed escape. -/
def setPath (u : URL) (p : GoString) : Except URLError URL :=
  match unescape p .encodePath with
  | .error e => .error e
  | .ok path => .ok { u with Path := path }

/-- `(*URL).setFragment`. -/
def setFragment (u : URL) (f : GoString) : Except URLError URL :=
  match unescape f .encodeFragment with
  | .error e => .error e
  | .ok frag => .ok { u with Fragment := frag }

/-- The zero `URL`, as `new(URL)` gives it. -/
def URL.zero : URL := ⟨[], [], none, [], [], false, false, [], []⟩

/-- `net/url.parse`: parses a URL without fragment. -/
def parse (rawURL : GoString) (viaRequest : Bool) : Except URLError URL :=
  if stringContainsCTLByte rawURL then .error (.other "net/url: invalid control character in URL")
  else if rawURL == [] && viaRequest then .error (.other "empty url")
  else if rawURL == "*".toList then .ok { URL.zero with Path := "*".toList }
  else
    match getScheme rawURL with
    | .error e => .error e
    | .ok (scheme, rest0) =>
      let url := { URL.zero with Scheme := ToLower scheme }
      let forced := HasSuffix rest0 "?".toList && Count rest0 '?' == 1
      let rest := if forced then rest0.take (rest0.length - 1) else (Cut rest0 "?".toList).1
      let url := if forced then { url with ForceQuery := true }
        else { url with RawQuery := (Cut rest0 "?".toList).2.1 }
      if !HasPrefix rest "/".toList && url.Scheme != [] then .ok { url with Opaque := rest }
      else if !HasPrefix rest "/".toList && viaRequest then
        .error (.other "invalid URI for request")
      else if !HasPrefix rest "/".toList && Contains (Cut rest "/".toList).1 ":".toList then
        .error (.other "first path segment in URL cannot contain colon")
      else if (url.Scheme != [] || !viaRequest && !HasPrefix rest "///".toList) &&
          HasPrefix rest "//".toList then
        let authority0 := rest.drop 2
        let authority := match Index authority0 "/".toList with
          | some i => authority0.take i
          | none => authority0
        let rest := match Index authority0 "/".toList with
          | some i => authority0.drop i
          | none => []
        match parseAuthority authority with
        | .error e => .error e
        | .ok (user, host) => setPath { url with User := user, Host := host } rest
      else if url.Scheme != [] && HasPrefix rest "/".toList then
        setPath { url with OmitHost := true } rest
      else setPath url rest

/-- `net/url.Parse`: cuts off the fragment, parses the rest, then sets the
fragment. (The wrapping of the error in `*url.Error` is left out.) -/
def Parse (rawURL : GoString) : Except URLError URL :=
  let (u, frag, _) := Cut rawURL "#".toList
  match parse u false with
  | .error e => .error e
  | .ok url => if frag == [] then .ok url else setFragment url frag

/-! ## `net` -/

/-- `net.SplitHostPort`: splits `host:port`, `[host]:port`; the error is the
`AddrError` reason. -/
def SplitHostPort (hostport : GoString) : Except String (GoString × GoString) :=
  match LastIndex hostport ":".toList with
  | none => .error "missing port in address"
  | some i =>
    let check (host : GoString) (j k : Nat) : Except String (GoString × GoString) :=
      if (Index (hostport.drop j) "[".toList).isSome then .error "unexpected '[' in address"
      else if (Index (hostport.drop k) "]".toList).isSome then .error "unexpected ']' in address"
      else .ok (host, hostport.drop (i + 1))
    if hostport.head? == some '[' then
      match Index hostport "]".toList with
      | none => .error "missing ']' in address"
      | some e =>
        if e + 1 = hostport.length then .error "missing port in address"
        else if e + 1 = i then check ((hostport.take e).drop 1) 1 (e + 1)
        else if hostport.get? (e + 1) == some ':' then .error "too many colons in address"
        else .error "missing port in address"
    else
      let host := hostport.take i
      if (Index host ":".toList).isSome then .error "too many colons in address"
      else check host 0 0

/-- `net.JoinHostPort`: `host:port`, with the host in brackets when it has a colon. -/
def JoinHostPort (host port : GoString) : GoString :=
  if (Index host ":".toList).isSome then "[".toList ++ host ++ "]:".toList ++ port
  else host ++ ":".toList ++ port

/-! ## The world outside the process -/

/-- A value of Go type `interface{}` as `encoding/json` decodes it: `nil`,
`bool`, `float64` (kept as its literal), `string`, `[]interface{}` and
`map[string]interface{}` (a list of fields, read by the first match). -/
inductive Value
  | null
  | bool (b : Bool)
  | number (literal : GoString)
  | string (s : GoString)
  | array (items : List Value)
  | object (fields : List (GoString × Value))

/-- A Go map from strings to `interface{}`. -/
abbrev Attributes := List (GoString × Value)

/-- The map index expression `m[key]`: the zero value `nil` when the key is absent
(also on a nil map). -/
def mapIndex (m : Attributes) (key : GoString) : Value :=
  (m.lookup key).getD .null

/-- The type assertion `v.(map[string]interface{})`; `none` when `v` holds
another type or is nil. -/
def assertMap : Value → Option Attributes
  | .object fields => some fields
  | _ => none

/-- The type assertion `v.(string)`; `none` when `v` holds another type or is nil. -/
def assertString : Value → Option GoString
  | .string s => some s
  | _ => none

/-- The part of `chef.Node` that `main.go` reads. -/
structure Node where
  NormalAttributes : Attributes

/-- `chef.SearchQuery`. -/
structure SearchQuery where
  Index : GoString
  Query : GoString
  SortBy : GoString
  Start : Int
  Rows : Int
  deriving DecidableEq

/-- `chef.SearchResult`. -/
structure SearchResult where
  Total : Int
  Start : Int
  Rows : List Value

/-- What the program finds outside itself: the environment, the current
user, the file system, the Chef client library and server, and the `ssh`
binary. An error is the text of the Go `error`. -/
structure World where
  /-- `os.Getenv`. -/
  getenv : GoString → GoString
  /-- `user.Current()`: the `Username`, or the error. -/
  currentUser : Except GoString GoString
  /-- `ioutil.ReadFile`. -/
  readFile : GoString → Except GoString GoString
  /-- `chef.NewClient` on `Name`, `Key`, `BaseURL`: the error, if any. -/
  newClient : GoString → GoString → GoString → Option GoString
  /-- `client.Nodes.Get`. -/
  nodesGet : GoString → Except GoString Node
  /-- `client.Search.NewQuery`. -/
  newQuery : GoString → GoString → Except GoString SearchQuery
  /-- `query.Do(client)`. -/
  queryDo : SearchQuery → Except GoString SearchResult
  /-- `exec.LookPath`. -/
  lookPath : GoString → Except GoString GoString
  /-- `os.Environ()`. -/
  environ : List GoString
  /-- `syscall.Exec` on binary, argument vector and environment: it returns
  only when it fails, with the error. -/
  exec : GoString → List GoString → List GoString → Option GoString

/-- A call the program makes to the outside. -/
inductive Call
  | ReadFile (path : GoString)
  | NewClient (name key baseURL : GoString)
  | NodesGet (name : GoString)
  | NewQuery (idx statement : GoString)
  | QueryDo (query : SearchQuery)
  | LookPath (file : GoString)
  | Exec (bin : GoString) (argv env : List GoString)
  deriving DecidableEq

/-- The calls that reach the inventory service. -/
def Call.isInventory : Call → Bool
  | .NodesGet _ => true
  | .QueryDo _ => true
  | _ => false

/-- How the process ends: its image is replaced by `bin` run on `argv`
(`syscall.Exec` succeeded), `log.Fatal` printed `message` and exited with
status 1, or a run-time fault (a Go panic) stopped it. -/
inductive Exit
  | exec (bin : GoString) (argv env : List GoString)
  | fatal (message : GoString)
  | fault (reason : String)
  deriving DecidableEq

/-- A run of the program: the calls it made, in order, and how it ended. -/
structure Run where
  calls : List Call
  exit : Exit
  deriving DecidableEq

/-- The run `r` preceded by the calls `cs`. -/
def Run.after (cs : List Call) (r : Run) : Run := ⟨cs ++ r.calls, r.exit⟩

/-! ## `main.go` -/

/-- `Config`. -/
structure Config where
  tld : GoString
  user : GoString
  serverURL : GoString
  userKey : GoString
  ipAttribute : GoString
  deriving DecidableEq

/-- `LookupType`, an `int`. -/
abbrev LookupType := Int

/-- `LOOKUP_NODE`. -/
def LOOKUP_NODE : LookupType := 1

/-- `LOOKUP_ROLE`. -/
def LOOKUP_ROLE : LookupType := 2

/-- `configFromEnv`. -/
def configFromEnv (w : World) : Config :=
  let c : Config := {
    tld := w.getenv "CHEF_TLD".toList
    user := w.getenv "CHEF_USER".toList
    serverURL := w.getenv "CHEF_SERVER_URL".toList
    userKey := w.getenv "CHEF_USER_KEY".toList
    ipAttribute := w.getenv "CHEF_IP_ATTRIBUTE".toList }
  let c := if c.tld == [] then { c with tld := ".chef".toList } else c
  let c := if c.user == [] then
      match w.currentUser with
      | .error _ => { c with user := w.getenv "USER".toList }
      | .ok username => { c with user := username }
    else c
  let c := if c.userKey == [] then
      { c with userKey := "~/.chef/".toList ++ c.user ++ ".pem".toList }
    else c
  c

/-- `formatURL`. -/
def formatURL (url : URL) : GoString :=
  if url.User.isNone || Username url.User == [] then url.Host
  else Username url.User ++ "@".toList ++ url.Host

/-- `joinHostPort`. -/
def joinHostPort (host port : GoString) : GoString :=
  if port == [] then host else JoinHostPort host port

/-- `ssh`: looks the binary up and replaces the process image; it never
returns to its caller. -/
def ssh (w : World) (argv : List GoString) : Run :=
  match w.lookPath "ssh".toList with
  | .error _ => ⟨[.LookPath "ssh".toList], .fatal "Cannot find \x60ssh\x60 binary.".toList⟩
  | .ok bin =>
    let argv1 := "ssh".toList :: argv
    match w.exec bin argv1 w.environ with
    | some _ => ⟨[.LookPath "ssh".toList, .Exec bin argv1 w.environ],
        .fatal "Couldn't execute ssh binary".toList⟩
    | none => ⟨[.LookPath "ssh".toList, .Exec bin argv1 w.environ], .exec bin argv1 w.environ⟩

/-- `getLookupType`: the lookup type and the error of the Go pair. -/
def getLookupType (hostname : GoString) : LookupType × Option GoString :=
  if HasSuffix hostname ".role".toList then (LOOKUP_ROLE, none)
  else if HasSuffix hostname ".node".toList then (LOOKUP_NODE, none)
  else (-1, some "Invalid lookup.".toList)

/-- The loop of `main` over `args` (from index `i` on): the first argument
whose `arg[:1]` is not `"-"` and its index, or the initial `("", 0)` when
there is none; `none` when `arg[:1]` faults. -/
def scanArgs : List GoString → Nat → Option (GoString × Nat)
  | [], _ => some ([], 0)
  | arg :: rest, i =>
    match sliceTo arg 1 with
    | none => none
    | some first => if first != "-".toList then some (arg, i) else scanArgs rest (i + 1)

/-- The last statements of `main`: the host of `dst` is replaced, the
destination argument is overwritten and `ssh` takes over. -/
def rewriteAndExec (w : World) (args : List GoString) (hostArg : Nat) (dst : URL)
    (hostname port : GoString) : Run :=
  let dst := { dst with Host := joinHostPort hostname port }
  ssh w (args.set hostArg (formatURL dst))

/-- The `LOOKUP_NODE` case of `main`; `hostname` still ends with `.node`. -/
def lookupNode (w : World) (config : Config) (args : List GoString) (hostArg : Nat) (dst : URL)
    (hostname port : GoString) : Run :=
  let hostname := hostname.take (hostname.length - ".node".length)
  match w.nodesGet hostname with
  | .error err => ⟨[.NodesGet hostname], .fatal ("Couldn't get node: ".toList ++ err)⟩
  | .ok node =>
    match assertString (mapIndex node.NormalAttributes config.ipAttribute) with
    | none => ⟨[.NodesGet hostname], .fatal "No ip address could be found for node.".toList⟩
    | some ip => (rewriteAndExec w args hostArg dst ip port).after [.NodesGet hostname]

/-- The `LOOKUP_ROLE` case of `main`; `hostname` still ends with `.role`. -/
def lookupRole (w : World) (config : Config) (args : List GoString) (hostArg : Nat) (dst : URL)
    (hostname port : GoString) : Run :=
  let hostname := hostname.take (hostname.length - ".role".length)
  let statement := "role:".toList ++ hostname
  match w.newQuery "node".toList statement with
  | .error err =>
    ⟨[.NewQuery "node".toList statement], .fatal ("Couldn't get role: ".toList ++ err)⟩
  | .ok query =>
    let query := { query with Rows := 1, SortBy := "name".toList }
    let calls := [Call.NewQuery "node".toList statement, Call.QueryDo query]
    match w.queryDo query with
    | .error err => ⟨calls, .fatal ("Couldn't get role: ".toList ++ err)⟩
    | .ok result =>
      if result.Total == 0 then ⟨calls, .fatal "Couldn't find node in role.".toList⟩
      else
        match result.Rows.head? with
        | none => ⟨calls, .fault "index out of range"⟩
        | some row =>
          match assertMap row with
          | none => ⟨calls, .fault "interface conversion"⟩
          | some fields =>
            match assertMap (mapIndex fields "normal".toList) with
            | none => ⟨calls, .fault "interface conversion"⟩
            | some normal =>
              match assertString (mapIndex normal config.ipAttribute) with
              | none => ⟨calls, .fatal "No ip address could be found for node.".toList⟩
              | some ip => (rewriteAndExec w args hostArg dst ip port).after calls

/-- The part of `main` after the comment "Beyond this point, we can assume
we're destined to hit Chef server"; `hostname` has lost the domain tag. -/
def resolve (w : World) (config : Config) (args : List GoString) (hostArg : Nat) (dst : URL)
    (hostname port : GoString) : Run :=
  match w.readFile config.userKey with
  | .error err =>
    ⟨[.ReadFile config.userKey], .fatal ("Couldn't read pem file: ".toList ++ err)⟩
  | .ok key =>
    let calls := [Call.ReadFile config.userKey,
      Call.NewClient config.user key (config.serverURL ++ "/".toList)]
    match w.newClient config.user key (config.serverURL ++ "/".toList) with
    | some err => ⟨calls, .fatal ("Issue setting up client: ".toList ++ err)⟩
    | none =>
      match getLookupType hostname with
      | (_, some err) => ⟨calls, .fatal err⟩
      | (lookup, none) =>
        if lookup = LOOKUP_NODE then
          (lookupNode w config args hostArg dst hostname port).after calls
        else if lookup = LOOKUP_ROLE then
          (lookupRole w config args hostArg dst hostname port).after calls
        else (rewriteAndExec w args hostArg dst hostname port).after calls

/-- The statements of `main` that split `dst.Host`: `net.SplitHostPort`, and
on its error the whole text as host with an empty port. -/
def hostAndPort (hostport : GoString) : GoString × GoString :=
  match SplitHostPort hostport with
  | .ok split => split
  | .error _ => (hostport, [])

/-- `main`, on `args = os.Args[1:]`. -/
def main (w : World) (args : List GoString) : Run :=
  match scanArgs args 0 with
  | none => ⟨[], .fault "slice bounds out of range"⟩
  | some (hostname, hostArg) =>
    if hostname == [] then ssh w args
    else
      let config := configFromEnv w
      match Parse ("ssh://".toList ++ hostname) with
      | .error _ => ssh w args
      | .ok dst =>
        let split := hostAndPort dst.Host
        if !HasSuffix split.1 config.tld then ssh w args
        else
          resolve w config args hostArg dst
            (split.1.take (split.1.length - config.tld.length)) split.2

/-- Parsing a destination token as `main` does and writing it back with the
host unchanged: `url.Parse` of `ssh://token`, the host and port split, then
`formatURL` over `joinHostPort`; `none` when the token does not parse. -/
def roundTrip (token : GoString) : Option GoString :=
  match Parse ("ssh://".toList ++ token) with
  | .error _ => none
  | .ok dst =>
    let split := hostAndPort dst.Host
    some (formatURL { dst with Host := joinHostPort split.1 split.2 })

/-- The calls of the handoff: the search for the binary and the `exec`. -/
def Call.isHandoff : Call → Bool
  | .LookPath _ => true
  | .Exec _ _ _ => true
  | _ => false

/-! ## Concrete inputs -/

/-- A world with the default configuration except for the attribute name
`ipaddress`: the key file is readable, the client is set up, the nodes
`myhost` and `web:1` have the address `10.0.0.5`, the node `web01` has no
address, any other node is unknown, every search returns `result`, and
`ssh` is found and runs. -/
def sampleWorld (result : SearchResult) : World where
  getenv := fun k => if k = "CHEF_IP_ATTRIBUTE".toList then "ipaddress".toList else []
  currentUser := .ok "deploy".toList
  readFile := fun _ => .ok "key".toList
  newClient := fun _ _ _ => none
  nodesGet := fun n =>
    if n = "myhost".toList || n = "web:1".toList then
      .ok ⟨[("ipaddress".toList, .string "10.0.0.5".toList)]⟩
    else if n = "web01".toList then .ok ⟨[]⟩
    else .error "404".toList
  newQuery := fun idx statement => .ok ⟨idx, statement, "X_CHEF_id_CHEF_X asc".toList, 0, 1000⟩
  queryDo := fun _ => .ok result
  lookPath := fun _ => .ok "/usr/bin/ssh".toList
  environ := []
  exec := fun _ _ _ => none

/-- A search result without matches. -/
def noMatch : SearchResult := ⟨0, 0, []⟩

/-- The URL that `url.Parse` returns for `ssh://` followed by an optional user
and a host: no other field is set. -/
def sshURL (user : Option GoString) (host : GoString) : URL :=
  { URL.zero with
    Scheme := "ssh".toList
    User := user.map (fun u => ⟨u, [], false⟩)
    Host := host }

/-- A search row for the node `name` with the address `ip` among its normal
attributes. -/
def nodeRow (name ip : GoString) : Value :=
  .object [("name".toList, .string name),
    ("normal".toList, .object [("ipaddress".toList, .string ip)])]

/-- Two answers of `query.Do` that agree on what `main` reads: the same
error, or results that agree on whether `Total` is zero and on the first row. -/
def sameFirstRow : Except GoString SearchResult → Except GoString SearchResult → Prop
  | .error e1, .error e2 => e1 = e2
  | .ok r1, .ok r2 => (r1.Total = 0 ↔ r2.Total = 0) ∧ r1.Rows.head? = r2.Rows.head?
  | _, _ => False

/-- A byte that may stand in the user of a destination without being
changed by parsing: the bytes `validUserinfo` accepts other than `:` (which
starts a password) and `%` (which starts an escape). -/
def userByte (c : Char) : Bool :=
  isLetter c || isDigit c || "-._~!$&'()*+,;=@".toList.contains c

/-- A byte that may stand in the host of a destination without being changed
by parsing: a byte outside ASCII, or a byte that `shouldEscape` leaves alone
in a host, other than `:`, `[` and `]` (which delimit port and brackets). -/
def hostByte (c : Char) : Bool :=
  isLetter c || isDigit c || "-._~!$&'()*+,;=<>\"".toList.contains c || decide (0x80 ≤ c.toNat)

/-- The text `host[:port]`. -/
def hostPort (host : GoString) (port : Option GoString) : GoString :=
  match port with
  | some p => host ++ ':' :: p
  | none => host

/-- The destination token `[user@]host[:port]`. -/
def destination (user : Option GoString) (host : GoString) (port : Option GoString) : GoString :=
  match user with
  | some u => u ++ '@' :: hostPort host port
  | none => hostPort host port

/-- The calls of a successful node lookup, before the handoff. -/
def nodeLookupCalls (config : Config) (key name : GoString) : List Call :=
  [.ReadFile config.userKey, .NewClient config.user key (config.serverURL ++ "/".toList),
    .NodesGet name]

/-- The calls of a successful role lookup, before the handoff; `query` is
what `NewQuery` returned. -/
def roleLookupCalls (config : Config) (key name : GoString) (query : SearchQuery) : List Call :=
  [.ReadFile config.userKey, .NewClient config.user key (config.serverURL ++ "/".toList),
    .NewQuery "node".toList ("role:".toList ++ name),
    .QueryDo { query with Rows := 1, SortBy := "name".toList }]

/-! ## Strings: prefixes and suffixes -/

theorem HasSuffix_iff (s suffix : GoString) : HasSuffix s suffix = true ↔ suffix <:+ s := by
  unfold HasSuffix
  constructor
  · intro h
    simp only [Bool.and_eq_true, decide_eq_true_eq, beq_iff_eq] at h
    rw [← h.2]
    exact List.drop_suffix _ _
  · rintro ⟨p, rfl⟩
    simp

theorem HasSuffix_append (p suffix : GoString) : HasSuffix (p ++ suffix) suffix = true :=
  (HasSuffix_iff _ _).2 ⟨p, rfl⟩

theorem HasPrefix_iff (s pre : GoString) : HasPrefix s pre = true ↔ pre <+: s := by
  unfold HasPrefix
  constructor
  · intro h
    simp only [Bool.and_eq_true, decide_eq_true_eq, beq_iff_eq] at h
    rw [← h.2]
    exact List.take_prefix _ _
  · rintro ⟨t, rfl⟩
    simp

theorem HasPrefix_cons_singleton (c d : Char) (t : GoString) :
    HasPrefix (c :: t) [d] = (c == d) := by
  simp [HasPrefix]

theorem HasPrefix_nil_singleton (d : Char) : HasPrefix [] [d] = false := by
  simp [HasPrefix]

/-! ## The argument scan -/

theorem scanArgs_flags (flags rest : List GoString) (i : Nat)
    (hflags : ∀ a ∈ flags, HasPrefix a "-".toList = true) :
    scanArgs (flags ++ rest) i = scanArgs rest (i + flags.length) := by
  induction flags generalizing i with
  | nil => simp
  | cons a flags ih =>
    have ha := hflags a (List.mem_cons_self _ _)
    have hrest : ∀ b ∈ flags, HasPrefix b "-".toList = true :=
      fun b hb => hflags b (List.mem_cons_of_mem _ hb)
    cases a with
    | nil => simp [HasPrefix] at ha
    | cons c t =>
      have hc : c = '-' := by simpa [HasPrefix] using ha
      subst hc
      simp only [List.cons_append, scanArgs, sliceTo]
      simp [ih (i + 1) hrest, Nat.add_assoc, Nat.add_comm 1]

theorem scanArgs_destination (t : GoString) (rest : List GoString) (i : Nat)
    (hne : t ≠ []) (hdash : HasPrefix t "-".toList = false) :
    scanArgs (t :: rest) i = some (t, i) := by
  cases t with
  | nil => exact absurd rfl hne
  | cons c r =>
    have hc : c ≠ '-' := by simpa [HasPrefix] using hdash
    simp [scanArgs, sliceTo, hc]

theorem scanArgs_empty_argument (rest : List GoString) (i : Nat) :
    scanArgs ([] :: rest) i = none := by
  simp [scanArgs, sliceTo]

/-- What a scan that does not fault returns: nothing when every argument
starts with `-`, else the first argument that does not, and its index. -/
theorem scanArgs_some (args : List GoString) (i : Nat) (hostname : GoString) (hostArg : Nat)
    (h : scanArgs args i = some (hostname, hostArg)) :
    (hostname = [] ∧ ∀ a ∈ args, HasPrefix a "-".toList = true) ∨
    (hostname ≠ [] ∧ HasPrefix hostname "-".toList = false ∧
      ∃ flags rest, args = flags ++ hostname :: rest ∧ hostArg = i + flags.length ∧
        ∀ a ∈ flags, HasPrefix a "-".toList = true) := by
  induction args generalizing i with
  | nil =>
    simp only [scanArgs, Option.some.injEq, Prod.mk.injEq] at h
    exact Or.inl ⟨h.1.symm, by simp⟩
  | cons a args ih =>
    cases a with
    | nil => simp [scanArgs, sliceTo] at h
    | cons c t =>
      by_cases hc : c = '-'
      · subst hc
        have h2 : scanArgs args (i + 1) = some (hostname, hostArg) := by
          simpa [scanArgs, sliceTo] using h
        have hflag : HasPrefix ('-' :: t) "-".toList = true := by simp [HasPrefix]
        rcases ih (i + 1) h2 with ⟨h0, hall⟩ | ⟨hne, hd, flags, rest, hargs, hidx, hall⟩
        · refine Or.inl ⟨h0, ?_⟩
          intro b hb
          rcases List.mem_cons.1 hb with rfl | hb
          · exact hflag
          · exact hall b hb
        · refine Or.inr ⟨hne, hd, ('-' :: t) :: flags, rest, by simp [hargs], ?_, ?_⟩
          · simp only [List.length_cons]; omega
          · intro b hb
            rcases List.mem_cons.1 hb with rfl | hb
            · exact hflag
            · exact hall b hb
      · have h2 : c :: t = hostname ∧ i = hostArg := by
          simpa [scanArgs, sliceTo, hc] using h
        obtain ⟨rfl, rfl⟩ := h2
        refine Or.inr ⟨by simp, by simp [HasPrefix, hc], [], args, by simp, by simp, by simp⟩

/-! ## The handoff -/

theorem exit_after (cs : List Call) (r : Run) : (r.after cs).exit = r.exit := rfl

theorem calls_after (cs : List Call) (r : Run) : (r.after cs).calls = cs ++ r.calls := rfl

theorem ssh_calls (w : World) (argv : List GoString) :
    ∀ c ∈ (ssh w argv).calls, c.isInventory = false ∧ c.isHandoff = true := by
  intro c hc
  unfold ssh at hc
  split at hc
  · simp only [List.mem_singleton] at hc
    subst hc
    exact ⟨rfl, rfl⟩
  · dsimp only at hc
    split at hc <;>
    · simp only [List.mem_cons, List.mem_singleton, List.not_mem_nil, or_false] at hc
      rcases hc with rfl | rfl <;> exact ⟨rfl, rfl⟩

theorem ssh_exit_exec (w : World) (a : List GoString) (bin : GoString) (argv env : List GoString)
    (h : (ssh w a).exit = .exec bin argv env) : argv = "ssh".toList :: a := by
  unfold ssh at h
  split at h
  · simp at h
  · dsimp only at h
    split at h
    · simp at h
    · simp only [Exit.exec.injEq] at h
      exact h.2.1.symm

theorem ssh_of_found (w : World) (a : List GoString) (bin : GoString)
    (hbin : w.lookPath "ssh".toList = .ok bin)
    (hexec : w.exec bin ("ssh".toList :: a) w.environ = none) :
    ssh w a = ⟨[.LookPath "ssh".toList, .Exec bin ("ssh".toList :: a) w.environ],
      .exec bin ("ssh".toList :: a) w.environ⟩ := by
  simp only [ssh, hbin, hexec]

theorem rewriteAndExec_exit_exec (w : World) (args : List GoString) (k : Nat) (dst : URL)
    (hostname port bin : GoString) (argv env : List GoString)
    (h : (rewriteAndExec w args k dst hostname port).exit = .exec bin argv env) :
    ∃ v, argv = "ssh".toList :: args.set k v :=
  ⟨_, ssh_exit_exec w _ bin argv env h⟩

theorem lookupNode_exit_exec (w : World) (config : Config) (args : List GoString) (k : Nat)
    (dst : URL) (hostname port bin : GoString) (argv env : List GoString)
    (h : (lookupNode w config args k dst hostname port).exit = .exec bin argv env) :
    ∃ v, argv = "ssh".toList :: args.set k v := by
  unfold lookupNode at h
  dsimp only at h
  split at h
  · simp at h
  · split at h
    · simp at h
    · exact rewriteAndExec_exit_exec w args k dst _ port bin argv env h

theorem lookupRole_exit_exec (w : World) (config : Config) (args : List GoString) (k : Nat)
    (dst : URL) (hostname port bin : GoString) (argv env : List GoString)
    (h : (lookupRole w config args k dst hostname port).exit = .exec bin argv env) :
    ∃ v, argv = "ssh".toList :: args.set k v := by
  unfold lookupRole at h
  dsimp only at h
  split at h
  · simp at h
  · split at h
    · simp at h
    · split at h
      · simp at h
      · split at h
        · simp at h
        · split at h
          · simp at h
          · split at h
            · simp at h
            · split at h
              · simp at h
              · exact rewriteAndExec_exit_exec w args k dst _ port bin argv env h

theorem resolve_exit_exec (w : World) (config : Config) (args : List GoString) (k : Nat)
    (dst : URL) (hostname port bin : GoString) (argv env : List GoString)
    (h : (resolve w config args k dst hostname port).exit = .exec bin argv env) :
    ∃ v, argv = "ssh".toList :: args.set k v := by
  unfold resolve at h
  dsimp only at h
  split at h
  · simp at h
  · split at h
    · simp at h
    · split at h
      · simp at h
      · split at h
        · exact lookupNode_exit_exec w config args k dst _ port bin argv env h
        · split at h
          · exact lookupRole_exit_exec w config args k dst _ port bin argv env h
          · exact rewriteAndExec_exit_exec w args k dst _ port bin argv env h

/-- Every handoff of `main` passes either the arguments as they came, or the
arguments with the scanned destination overwritten. -/
theorem main_exit_exec (w : World) (args : List GoString) (bin : GoString)
    (argv env : List GoString) (h : (main w args).exit = .exec bin argv env) :
    argv = "ssh".toList :: args ∨
    ∃ hostname k v, scanArgs args 0 = some (hostname, k) ∧ hostname ≠ [] ∧
      argv = "ssh".toList :: args.set k v := by
  unfold main at h
  dsimp only at h
  split at h
  · simp at h
  · rename_i hostname k hscan
    split at h
    · exact Or.inl (ssh_exit_exec w _ bin argv env h)
    · rename_i hne
      have hne2 : hostname ≠ [] := by simpa using hne
      split at h
      · exact Or.inl (ssh_exit_exec w _ bin argv env h)
      · split at h
        · exact Or.inl (ssh_exit_exec w _ bin argv env h)
        · obtain ⟨v, hv⟩ := resolve_exit_exec w _ args k _ _ _ bin argv env h
          exact Or.inr ⟨hostname, k, v, hscan, hne2, hv⟩

/-! ## The configuration and the empty token -/

theorem configFromEnv_tld_ne_nil (w : World) : (configFromEnv w).tld ≠ [] := by
  unfold configFromEnv
  dsimp only
  cases h : w.getenv "CHEF_TLD".toList == [] with
  | true =>
    simp only [↓reduceIte]
    repeat' split
    all_goals exact List.cons_ne_nil _ _
  | false =>
    have hne : w.getenv "CHEF_TLD".toList ≠ [] := by simpa using h
    simp only [Bool.false_eq_true, ↓reduceIte]
    repeat' split
    all_goals exact hne

theorem Parse_empty : Parse ("ssh://".toList ++ []) = .ok (sshURL none []) := rfl

/-! ## Pass-through -/

/-- The run of `main` on a vector whose first argument not starting with `-`
is the non-empty `t`. -/
theorem main_of_destination (w : World) (flags : List GoString) (t : GoString)
    (rest : List GoString) (hflags : ∀ a ∈ flags, HasPrefix a "-".toList = true)
    (hne : t ≠ []) (hdash : HasPrefix t "-".toList = false) :
    main w (flags ++ t :: rest) =
      match Parse ("ssh://".toList ++ t) with
      | .error _ => ssh w (flags ++ t :: rest)
      | .ok dst =>
        if !HasSuffix (hostAndPort dst.Host).1 (configFromEnv w).tld then
          ssh w (flags ++ t :: rest)
        else
          resolve w (configFromEnv w) (flags ++ t :: rest) flags.length dst
            ((hostAndPort dst.Host).1.take
              ((hostAndPort dst.Host).1.length - (configFromEnv w).tld.length))
            (hostAndPort dst.Host).2 := by
  have hscan : scanArgs (flags ++ t :: rest) 0 = some (t, flags.length) := by
    rw [scanArgs_flags flags _ 0 hflags, scanArgs_destination t rest _ hne hdash, Nat.zero_add]
  unfold main
  rw [hscan]
  have hne2 : (t == []) = false := by simpa using hne
  simp only [hne2]
  rfl

/-- C1: when the destination token parses and its host, after the
host[:port] split, does not end with the configured domain tag, `main` hands
the argument vector to `ssh` as it came and makes no inventory call. -/
theorem main_passes_through_on_tag_mismatch (w : World) (flags : List GoString) (t : GoString)
    (rest : List GoString) (dst : URL)
    (hflags : ∀ a ∈ flags, HasPrefix a "-".toList = true)
    (hne : t ≠ []) (hdash : HasPrefix t "-".toList = false)
    (hparse : Parse ("ssh://".toList ++ t) = .ok dst)
    (htag : ¬ (configFromEnv w).tld <:+ (hostAndPort dst.Host).1) :
    main w (flags ++ t :: rest) = ssh w (flags ++ t :: rest) ∧
    ∀ c ∈ (main w (flags ++ t :: rest)).calls, c.isInventory = false := by
  have hsuffix : HasSuffix (hostAndPort dst.Host).1 (configFromEnv w).tld = false := by
    rw [← Bool.not_eq_true, HasSuffix_iff]
    exact htag
  have hmain : main w (flags ++ t :: rest) = ssh w (flags ++ t :: rest) := by
    rw [main_of_destination w flags t rest hflags hne hdash, hparse]
    simp only [hsuffix]
    rfl
  refine ⟨hmain, ?_⟩
  rw [hmain]
  exact fun c hc => (ssh_calls w _ c hc).1

/-- C1 at `-v user@example.com:2222 uptime` with the default tag `.chef`. -/
theorem main_passes_through_on_tag_mismatch_witness :
    main (sampleWorld noMatch) ["-v".toList, "user@example.com:2222".toList, "uptime".toList] =
      ssh (sampleWorld noMatch) ["-v".toList, "user@example.com:2222".toList, "uptime".toList] :=
  (main_passes_through_on_tag_mismatch (sampleWorld noMatch) ["-v".toList]
    "user@example.com:2222".toList ["uptime".toList]
    (sshURL (some "user".toList) "example.com:2222".toList)
    (by decide) (by decide) (by decide) rfl (by decide)).1

/-- C2: when the destination token does not parse as `ssh://<token>`, `main`
hands the argument vector to `ssh` as it came: it raises no fatal error of
its own, and when the `ssh` binary is found and `exec` succeeds the process
image is replaced with `ssh` followed by the unchanged arguments. -/
theorem main_passes_through_on_parse_failure (w : World) (flags : List GoString) (t : GoString)
    (rest : List GoString) (e : URLError)
    (hflags : ∀ a ∈ flags, HasPrefix a "-".toList = true)
    (hdash : HasPrefix t "-".toList = false)
    (hparse : Parse ("ssh://".toList ++ t) = .error e) :
    main w (flags ++ t :: rest) = ssh w (flags ++ t :: rest) ∧
    ∀ bin, w.lookPath "ssh".toList = .ok bin →
      w.exec bin ("ssh".toList :: (flags ++ t :: rest)) w.environ = none →
      (main w (flags ++ t :: rest)).exit =
        .exec bin ("ssh".toList :: (flags ++ t :: rest)) w.environ := by
  have hne : t ≠ [] := by
    rintro rfl
    rw [Parse_empty] at hparse
    cases hparse
  have hmain : main w (flags ++ t :: rest) = ssh w (flags ++ t :: rest) := by
    rw [main_of_destination w flags t rest hflags hne hdash, hparse]
  refine ⟨hmain, ?_⟩
  intro bin hbin hexec
  rw [hmain, ssh_of_found w _ bin hbin hexec]

/-- C2 at `-p host:port uptime`, whose port is not a number. -/
theorem main_passes_through_on_parse_failure_witness :
    (main (sampleWorld noMatch) ["-p".toList, "host:port".toList, "uptime".toList]).exit =
      .exec "/usr/bin/ssh".toList
        ["ssh".toList, "-p".toList, "host:port".toList, "uptime".toList] [] :=
  (main_passes_through_on_parse_failure (sampleWorld noMatch) ["-p".toList]
    "host:port".toList ["uptime".toList] (.other "invalid port after host")
    (by decide) (by decide) rfl).2 "/usr/bin/ssh".toList rfl rfl

/-- C3 (the code faults): an empty argument reached by the scan, that is
one preceded only by arguments that start with `-`, stops `main` with the
run-time fault of `arg[:1]` on an empty string, whatever follows it; no call
is made and `ssh` is not started. -/
theorem main_faults_on_empty_argument (w : World) (flags rest : List GoString) :
    main w (flags.map (fun a => '-' :: a) ++ [] :: rest) =
      ⟨[], .fault "slice bounds out of range"⟩ := by
  have hflags : ∀ a ∈ flags.map (fun a => '-' :: a), HasPrefix a "-".toList = true := by
    intro a ha
    obtain ⟨b, _, rfl⟩ := List.mem_map.1 ha
    simp [HasPrefix]
  unfold main
  rw [scanArgs_flags _ _ 0 hflags, scanArgs_empty_argument]

/-! ## The frame of the rewrite -/

theorem findIdx_flags (flags : List GoString) (t : GoString) (rest : List GoString)
    (hflags : ∀ a ∈ flags, HasPrefix a "-".toList = true)
    (hdash : HasPrefix t "-".toList = false) :
    (flags ++ t :: rest).findIdx (fun a => !HasPrefix a "-".toList) = flags.length := by
  induction flags with
  | nil =>
    rw [List.nil_append, List.findIdx_cons, hdash]
    rfl
  | cons a flags ih =>
    have ha := hflags a (List.mem_cons_self _ _)
    have hrest : ∀ b ∈ flags, HasPrefix b "-".toList = true :=
      fun b hb => hflags b (List.mem_cons_of_mem _ hb)
    rw [List.cons_append, List.findIdx_cons, ha, ih hrest]
    rfl

theorem ssh_calls_exec (w : World) (a : List GoString) (bin : GoString)
    (argv env : List GoString) (h : Call.Exec bin argv env ∈ (ssh w a).calls) :
    argv = "ssh".toList :: a := by
  unfold ssh at h
  split at h
  · simp at h
  · dsimp only at h
    split at h <;>
    · simp only [List.mem_cons, List.mem_singleton, List.not_mem_nil, or_false, reduceCtorEq,
        false_or, Call.Exec.injEq] at h
      exact h.2.1

theorem rewriteAndExec_calls_exec (w : World) (args : List GoString) (k : Nat) (dst : URL)
    (hostname port bin : GoString) (argv env : List GoString)
    (h : Call.Exec bin argv env ∈ (rewriteAndExec w args k dst hostname port).calls) :
    ∃ v, argv = "ssh".toList :: args.set k v :=
  ⟨_, ssh_calls_exec w _ bin argv env h⟩

theorem lookupNode_calls_exec (w : World) (config : Config) (args : List GoString) (k : Nat)
    (dst : URL) (hostname port bin : GoString) (argv env : List GoString)
    (h : Call.Exec bin argv env ∈ (lookupNode w config args k dst hostname port).calls) :
    ∃ v, argv = "ssh".toList :: args.set k v := by
  unfold lookupNode at h
  dsimp only at h
  repeat' split at h
  all_goals
    simp only [calls_after, List.mem_append, List.mem_cons, List.mem_singleton,
      List.not_mem_nil, or_false, false_or, reduceCtorEq] at h
  exact rewriteAndExec_calls_exec w args k dst _ port bin argv env h

theorem lookupRole_calls_exec (w : World) (config : Config) (args : List GoString) (k : Nat)
    (dst : URL) (hostname port bin : GoString) (argv env : List GoString)
    (h : Call.Exec bin argv env ∈ (lookupRole w config args k dst hostname port).calls) :
    ∃ v, argv = "ssh".toList :: args.set k v := by
  unfold lookupRole at h
  dsimp only at h
  repeat' split at h
  all_goals
    simp only [calls_after, List.mem_append, List.mem_cons, List.mem_singleton,
      List.not_mem_nil, or_false, false_or, reduceCtorEq] at h
  exact rewriteAndExec_calls_exec w args k dst _ port bin argv env h

theorem resolve_calls_exec (w : World) (config : Config) (args : List GoString) (k : Nat)
    (dst : URL) (hostname port bin : GoString) (argv env : List GoString)
    (h : Call.Exec bin argv env ∈ (resolve w config args k dst hostname port).calls) :
    ∃ v, argv = "ssh".toList :: args.set k v := by
  unfold resolve at h
  dsimp only at h
  repeat' split at h
  all_goals
    simp only [calls_after, List.mem_append, List.mem_cons, List.mem_singleton,
      List.not_mem_nil, or_false, false_or, reduceCtorEq] at h
  · exact lookupNode_calls_exec w config args k dst _ port bin argv env h
  · exact lookupRole_calls_exec w config args k dst _ port bin argv env h
  · exact rewriteAndExec_calls_exec w args k dst _ port bin argv env h

/-- Every `exec` that `main` attempts passes either the arguments as they
came, or the arguments with the scanned destination overwritten. -/
theorem main_calls_exec (w : World) (args : List GoString) (bin : GoString)
    (argv env : List GoString) (h : Call.Exec bin argv env ∈ (main w args).calls) :
    argv = "ssh".toList :: args ∨
    ∃ hostname k v, scanArgs args 0 = some (hostname, k) ∧ hostname ≠ [] ∧
      argv = "ssh".toList :: args.set k v := by
  unfold main at h
  dsimp only at h
  split at h
  · simp at h
  · rename_i hostname k hscan
    split at h
    · exact Or.inl (ssh_calls_exec w _ bin argv env h)
    · rename_i hne
      have hne2 : hostname ≠ [] := by simpa using hne
      split at h
      · exact Or.inl (ssh_calls_exec w _ bin argv env h)
      · split at h
        · exact Or.inl (ssh_calls_exec w _ bin argv env h)
        · obtain ⟨v, hv⟩ := resolve_calls_exec w _ args k _ _ _ bin argv env h
          exact Or.inr ⟨hostname, k, v, hscan, hne2, hv⟩

/-- C6: in every run that ends in a handoff (the process image is replaced,
or at least the `exec` of `ssh` is attempted), the vector passed to `ssh`
(after the leading `ssh`) has the length of the input and agrees with it at
every index other than the least index whose element does not start with
`-`. -/
theorem main_changes_only_destination (w : World) (args : List GoString) (bin : GoString)
    (argv env : List GoString)
    (h : (main w args).exit = .exec bin argv env ∨
      Call.Exec bin argv env ∈ (main w args).calls) :
    ∃ out, argv = "ssh".toList :: out ∧ out.length = args.length ∧
      ∀ j, j ≠ args.findIdx (fun a => !HasPrefix a "-".toList) → out[j]? = args[j]? := by
  have hcases : argv = "ssh".toList :: args ∨
      ∃ hostname k v, scanArgs args 0 = some (hostname, k) ∧ hostname ≠ [] ∧
        argv = "ssh".toList :: args.set k v :=
    h.elim (main_exit_exec w args bin argv env) (main_calls_exec w args bin argv env)
  rcases hcases with rfl | ⟨hostname, k, v, hscan, hne, rfl⟩
  · exact ⟨args, rfl, rfl, fun _ _ => rfl⟩
  · refine ⟨args.set k v, rfl, List.length_set _ _ _, ?_⟩
    intro j hj
    rcases scanArgs_some args 0 hostname k hscan with ⟨h0, _⟩ |
      ⟨_, hdash, flags, rest, hargs, hk, hflags⟩
    · exact absurd h0 hne
    · have hidx : args.findIdx (fun a => !HasPrefix a "-".toList) = k := by
        rw [hargs, findIdx_flags flags hostname rest hflags hdash, hk, Nat.zero_add]
      rw [hidx] at hj
      exact List.getElem?_set_ne (Ne.symm hj)

/-- C6 at `-v user@myhost.node.chef uptime`: only index 1 may differ. -/
theorem main_changes_only_destination_witness :
    ∃ out, ["ssh".toList, "-v".toList, "user@10.0.0.5".toList, "uptime".toList] =
        "ssh".toList :: out ∧
      out.length = ["-v".toList, "user@myhost.node.chef".toList, "uptime".toList].length ∧
      ∀ j, j ≠ List.findIdx (fun a => !HasPrefix a "-".toList)
          ["-v".toList, "user@myhost.node.chef".toList, "uptime".toList] →
        out[j]? = ["-v".toList, "user@myhost.node.chef".toList, "uptime".toList][j]? :=
  main_changes_only_destination (sampleWorld noMatch)
    ["-v".toList, "user@myhost.node.chef".toList, "uptime".toList] "/usr/bin/ssh".toList
    ["ssh".toList, "-v".toList, "user@10.0.0.5".toList, "uptime".toList] []
    (Or.inl (by decide))

/-! ## Classification of the lookup -/

theorem suffix_role_not_node (h : GoString) (hrole : HasSuffix h ".role".toList = true) :
    HasSuffix h ".node".toList = false := by
  cases hnode : HasSuffix h ".node".toList with
  | false => rfl
  | true =>
    simp only [HasSuffix, Bool.and_eq_true, decide_eq_true_eq, beq_iff_eq] at hrole hnode
    have hlen : ".role".toList.length = ".node".toList.length := rfl
    rw [hlen, hnode.2] at hrole
    exact absurd hrole.2 (by decide)

theorem getLookupType_cases (h : GoString) :
    (getLookupType h = (LOOKUP_NODE, none) ↔ ".node".toList <:+ h) ∧
    (getLookupType h = (LOOKUP_ROLE, none) ↔ ".role".toList <:+ h) ∧
    (getLookupType h = (-1, some "Invalid lookup.".toList) ↔
      ¬ ".node".toList <:+ h ∧ ¬ ".role".toList <:+ h) := by
  rw [← HasSuffix_iff, ← HasSuffix_iff]
  unfold getLookupType
  cases hrole : HasSuffix h ".role".toList with
  | true =>
    have hnode := suffix_role_not_node h hrole
    simp only [hnode]
    simp [LOOKUP_NODE, LOOKUP_ROLE]
  | false =>
    cases hnode : HasSuffix h ".node".toList <;> simp [LOOKUP_NODE, LOOKUP_ROLE]

theorem resolve_invalid_lookup (w : World) (config : Config) (args : List GoString) (k : Nat)
    (dst : URL) (hostname port : GoString)
    (hnode : HasSuffix hostname ".node".toList = false)
    (hrole : HasSuffix hostname ".role".toList = false) :
    (∃ message, (resolve w config args k dst hostname port).exit = .fatal message) ∧
    (∀ c ∈ (resolve w config args k dst hostname port).calls,
      c.isHandoff = false ∧ c.isInventory = false) ∧
    (∀ key, w.readFile config.userKey = .ok key →
      w.newClient config.user key (config.serverURL ++ "/".toList) = none →
      (resolve w config args k dst hostname port).exit = .fatal "Invalid lookup.".toList) := by
  unfold resolve
  cases hread : w.readFile config.userKey with
  | error err =>
    refine ⟨⟨_, rfl⟩, ?_, fun key hkey => by simp at hkey⟩
    intro c hc
    simp only [List.mem_singleton] at hc
    subst hc
    exact ⟨rfl, rfl⟩
  | ok key =>
    dsimp only
    cases hclient : w.newClient config.user key (config.serverURL ++ "/".toList) with
    | some err =>
      refine ⟨⟨_, rfl⟩, ?_, fun key2 hkey hnone => ?_⟩
      · intro c hc
        simp only [List.mem_cons, List.mem_singleton, List.not_mem_nil, or_false] at hc
        rcases hc with rfl | rfl <;> exact ⟨rfl, rfl⟩
      · simp only [Except.ok.injEq] at hkey
        subst hkey
        rw [hclient] at hnone
        simp at hnone
    | none =>
      have htype : getLookupType hostname = (-1, some "Invalid lookup.".toList) := by
        unfold getLookupType
        rw [hrole, hnode]
        rfl
      rw [htype]
      refine ⟨⟨_, rfl⟩, ?_, fun _ _ _ => rfl⟩
      intro c hc
      change c ∈ [Call.ReadFile config.userKey,
        Call.NewClient config.user key (config.serverURL ++ "/".toList)] at hc
      simp only [List.mem_cons, List.mem_singleton, List.not_mem_nil, or_false] at hc
      rcases hc with rfl | rfl <;> exact ⟨rfl, rfl⟩

theorem take_stripped (stripped tag : GoString) :
    (stripped ++ tag).take ((stripped ++ tag).length - tag.length) = stripped := by
  simp

theorem take_node (name : GoString) :
    (name ++ ".node".toList).take ((name ++ ".node".toList).length - ".node".length) = name := by
  have h : ".node".length = ".node".toList.length := rfl
  rw [h, take_stripped]

theorem take_role (name : GoString) :
    (name ++ ".role".toList).take ((name ++ ".role".toList).length - ".role".length) = name := by
  have h : ".role".length = ".role".toList.length := rfl
  rw [h, take_stripped]

/-- The run of `main` on a destination that parses and whose host is
`stripped` followed by the domain tag. -/
theorem main_of_tagged (w : World) (flags : List GoString) (t : GoString)
    (rest : List GoString) (dst : URL) (stripped : GoString)
    (hflags : ∀ a ∈ flags, HasPrefix a "-".toList = true)
    (hne : t ≠ []) (hdash : HasPrefix t "-".toList = false)
    (hparse : Parse ("ssh://".toList ++ t) = .ok dst)
    (hhost : (hostAndPort dst.Host).1 = stripped ++ (configFromEnv w).tld) :
    main w (flags ++ t :: rest) =
      resolve w (configFromEnv w) (flags ++ t :: rest) flags.length dst stripped
        (hostAndPort dst.Host).2 := by
  rw [main_of_destination w flags t rest hflags hne hdash, hparse]
  simp only [hhost, HasSuffix_append, take_stripped]
  rfl

/-- C7: `getLookupType` answers `LOOKUP_NODE` exactly on the names that end
with `.node`, `LOOKUP_ROLE` exactly on those that end with `.role`, and the
error `Invalid lookup.` exactly on the others; and on a destination whose host
ends with the domain tag but, once the tag is removed, with neither `.node`
nor `.role`, `main` ends with a fatal error and starts neither `ssh` nor an
inventory call (the error is `Invalid lookup.` once the key file is read and
the client is set up). -/
theorem lookup_classification_total (w : World) (flags : List GoString) (t : GoString)
    (rest : List GoString) (dst : URL) (stripped h : GoString)
    (hflags : ∀ a ∈ flags, HasPrefix a "-".toList = true)
    (hdash : HasPrefix t "-".toList = false)
    (hparse : Parse ("ssh://".toList ++ t) = .ok dst)
    (hhost : (hostAndPort dst.Host).1 = stripped ++ (configFromEnv w).tld)
    (hnode : ¬ ".node".toList <:+ stripped) (hrole : ¬ ".role".toList <:+ stripped) :
    ((getLookupType h = (LOOKUP_NODE, none) ↔ ".node".toList <:+ h) ∧
      (getLookupType h = (LOOKUP_ROLE, none) ↔ ".role".toList <:+ h) ∧
      (getLookupType h = (-1, some "Invalid lookup.".toList) ↔
        ¬ ".node".toList <:+ h ∧ ¬ ".role".toList <:+ h)) ∧
    (∃ message, (main w (flags ++ t :: rest)).exit = .fatal message) ∧
    (∀ c ∈ (main w (flags ++ t :: rest)).calls, c.isHandoff = false ∧ c.isInventory = false) ∧
    (∀ key, w.readFile (configFromEnv w).userKey = .ok key →
      w.newClient (configFromEnv w).user key ((configFromEnv w).serverURL ++ "/".toList) = none →
      (main w (flags ++ t :: rest)).exit = .fatal "Invalid lookup.".toList) := by
  refine ⟨getLookupType_cases h, ?_⟩
  have hne : t ≠ [] := by
    rintro rfl
    rw [Parse_empty] at hparse
    obtain rfl : sshURL none [] = dst := Except.ok.inj hparse
    have hnil : stripped ++ (configFromEnv w).tld = [] := hhost.symm
    exact configFromEnv_tld_ne_nil w (List.append_eq_nil.1 hnil).2
  rw [main_of_tagged w flags t rest dst stripped hflags hne hdash hparse hhost]
  have hn : HasSuffix stripped ".node".toList = false := by
    rw [← Bool.not_eq_true, HasSuffix_iff]
    exact hnode
  have hr : HasSuffix stripped ".role".toList = false := by
    rw [← Bool.not_eq_true, HasSuffix_iff]
    exact hrole
  exact resolve_invalid_lookup w _ _ _ dst stripped _ hn hr

/-- C7 at `-v user@db.shard.chef:22`: the fatal error `Invalid lookup.`. -/
theorem lookup_classification_total_witness :
    (main (sampleWorld noMatch) ["-v".toList, "user@db.shard.chef:22".toList]).exit =
      .fatal "Invalid lookup.".toList :=
  (lookup_classification_total (sampleWorld noMatch) ["-v".toList]
    "user@db.shard.chef:22".toList [] (sshURL (some "user".toList) "db.shard.chef:22".toList)
    "db.shard".toList "db.shard".toList
    (by decide) (by decide) rfl (by decide) (by decide) (by decide)).2.2.2
    "key".toList rfl rfl

/-! ## Arguments without a destination -/

theorem main_without_destination (w : World) (args : List GoString)
    (hflags : ∀ a ∈ args, HasPrefix a "-".toList = true) : main w args = ssh w args := by
  have hscan : scanArgs args 0 = some ([], 0) := by
    have h := scanArgs_flags args [] 0 hflags
    rw [List.append_nil] at h
    rw [h]
    rfl
  unfold main
  rw [hscan]
  rfl

/-! ## The group query -/

/-- The `LOOKUP_ROLE` case when the result reports no match. -/
theorem lookupRole_total_zero (w : World) (config : Config) (args : List GoString) (k : Nat)
    (dst : URL) (group port : GoString) (query : SearchQuery) (result : SearchResult)
    (hquery : w.newQuery "node".toList ("role:".toList ++ group) = .ok query)
    (hdo : w.queryDo { query with Rows := 1, SortBy := "name".toList } = .ok result)
    (htotal : result.Total = 0) :
    lookupRole w config args k dst (group ++ ".role".toList) port =
      ⟨[.NewQuery "node".toList ("role:".toList ++ group),
          .QueryDo { query with Rows := 1, SortBy := "name".toList }],
        .fatal "Couldn't find node in role.".toList⟩ := by
  unfold lookupRole
  rw [take_role]
  simp only [hquery, hdo, htotal]
  rfl

/-- C8 (the code faults): the destination `build.role.chef:2222`, when the
search answers with a non-zero `Total` and no row, stops `main` with the
run-time fault of `result.Rows[0]`; the guard before it tests `Total`, not
the rows. -/
theorem main_faults_on_result_without_rows :
    (main (sampleWorld ⟨1, 0, []⟩) ["build.role.chef:2222".toList]).exit =
      .fault "index out of range" := by
  decide

/-- C9 (the code faults): on the destination `web01.role.chef`, a first row
that is not a map, a first row without a `normal` section, and a first row
whose `normal` section is not a map each stop `main` with the run-time fault
of a failed type assertion, not with the fatal error
`No ip address could be found for node.`. -/
theorem main_faults_on_malformed_row :
    (main (sampleWorld ⟨1, 0, [.null]⟩) ["web01.role.chef".toList]).exit =
      .fault "interface conversion" ∧
    (main (sampleWorld ⟨1, 0, [.object [("name".toList, .string "web01".toList)]]⟩)
      ["web01.role.chef".toList]).exit = .fault "interface conversion" ∧
    (main (sampleWorld ⟨1, 0, [.object [("normal".toList, .string "10.0.0.5".toList)]]⟩)
      ["web01.role.chef".toList]).exit = .fault "interface conversion" := by
  decide

/-- C10 (counterexample): the search returns the row of `zeta` before the row
of `alpha`; `alpha` is the smaller name, and `main` connects to the address
of `zeta`. -/
theorem main_uses_first_row_not_smallest_name :
    "alpha".toList < "zeta".toList ∧
    (main (sampleWorld ⟨2, 0, [nodeRow "zeta".toList "10.0.0.9".toList,
        nodeRow "alpha".toList "10.0.0.1".toList]⟩) ["build.role.chef".toList]).exit =
      .exec "/usr/bin/ssh".toList ["ssh".toList, "10.0.0.9".toList] [] := by
  decide

/-! ## The group query reads the first row only -/

theorem rewriteAndExec_queryDo (w : World) (f : SearchQuery → Except GoString SearchResult)
    (args : List GoString) (k : Nat) (dst : URL) (hostname port : GoString) :
    rewriteAndExec { w with queryDo := f } args k dst hostname port =
      rewriteAndExec w args k dst hostname port := rfl

theorem lookupNode_queryDo (w : World) (f : SearchQuery → Except GoString SearchResult)
    (config : Config) (args : List GoString) (k : Nat) (dst : URL) (hostname port : GoString) :
    lookupNode { w with queryDo := f } config args k dst hostname port =
      lookupNode w config args k dst hostname port := rfl

theorem lookupRole_queryDo (w : World) (f : SearchQuery → Except GoString SearchResult)
    (config : Config) (args : List GoString) (k : Nat) (dst : URL) (hostname port : GoString)
    (hf : ∀ q, sameFirstRow (w.queryDo q) (f q)) :
    lookupRole { w with queryDo := f } config args k dst hostname port =
      lookupRole w config args k dst hostname port := by
  unfold lookupRole
  dsimp only
  cases hquery : w.newQuery "node".toList
      ("role:".toList ++ List.take (hostname.length - ".role".length) hostname) with
  | error err => rfl
  | ok query =>
    dsimp only
    have h := hf { query with Rows := 1, SortBy := "name".toList }
    cases h1 : w.queryDo { query with Rows := 1, SortBy := "name".toList } with
    | error e1 =>
      cases h2 : f { query with Rows := 1, SortBy := "name".toList } with
      | error e2 =>
        rw [h1, h2] at h
        have he : e1 = e2 := h
        rw [he]
      | ok r2 =>
        rw [h1, h2] at h
        exact absurd h id
    | ok r1 =>
      cases h2 : f { query with Rows := 1, SortBy := "name".toList } with
      | error e2 =>
        rw [h1, h2] at h
        exact absurd h id
      | ok r2 =>
        rw [h1, h2] at h
        obtain ⟨htotal, hhead⟩ : (r1.Total = 0 ↔ r2.Total = 0) ∧ r1.Rows.head? = r2.Rows.head? := h
        dsimp only
        by_cases h0 : r1.Total = 0
        · have h0b := htotal.1 h0
          simp only [h0, h0b]
          rfl
        · have h0b : ¬ r2.Total = 0 := fun hb => h0 (htotal.2 hb)
          simp only [beq_iff_eq, h0, h0b, hhead]
          rfl

theorem resolve_queryDo (w : World) (f : SearchQuery → Except GoString SearchResult)
    (config : Config) (args : List GoString) (k : Nat) (dst : URL) (hostname port : GoString)
    (hf : ∀ q, sameFirstRow (w.queryDo q) (f q)) :
    resolve { w with queryDo := f } config args k dst hostname port =
      resolve w config args k dst hostname port := by
  unfold resolve
  simp only [lookupRole_queryDo w f config args k dst hostname port hf, lookupNode_queryDo,
    rewriteAndExec_queryDo]

theorem main_queryDo (w : World) (f : SearchQuery → Except GoString SearchResult)
    (args : List GoString) (hf : ∀ q, sameFirstRow (w.queryDo q) (f q)) :
    main { w with queryDo := f } args = main w args := by
  unfold main
  have hconfig : configFromEnv { w with queryDo := f } = configFromEnv w := rfl
  have hssh : ssh { w with queryDo := f } args = ssh w args := rfl
  simp only [hconfig, hssh, resolve_queryDo w f _ _ _ _ _ _ hf]

theorem ssh_no_query (w : World) (argv : List GoString) (q : SearchQuery) :
    Call.QueryDo q ∉ (ssh w argv).calls :=
  fun h => absurd (ssh_calls w argv _ h).2 (by simp [Call.isHandoff])

theorem rewriteAndExec_no_query (w : World) (args : List GoString) (k : Nat) (dst : URL)
    (hostname port : GoString) (q : SearchQuery) :
    Call.QueryDo q ∉ (rewriteAndExec w args k dst hostname port).calls :=
  ssh_no_query w _ q

theorem lookupNode_no_query (w : World) (config : Config) (args : List GoString) (k : Nat)
    (dst : URL) (hostname port : GoString) (q : SearchQuery) :
    Call.QueryDo q ∉ (lookupNode w config args k dst hostname port).calls := by
  intro hc
  unfold lookupNode at hc
  dsimp only at hc
  repeat' split at hc
  all_goals
    simp only [calls_after, List.mem_append, List.mem_cons, List.mem_singleton,
      List.not_mem_nil, or_false, false_or, reduceCtorEq] at hc
  exact rewriteAndExec_no_query _ _ _ _ _ _ _ hc

theorem lookupRole_query (w : World) (config : Config) (args : List GoString) (k : Nat)
    (dst : URL) (hostname port : GoString) (q : SearchQuery)
    (hc : Call.QueryDo q ∈ (lookupRole w config args k dst hostname port).calls) :
    q.Rows = 1 ∧ q.SortBy = "name".toList := by
  unfold lookupRole at hc
  dsimp only at hc
  repeat' split at hc
  all_goals
    simp only [calls_after, List.mem_append, List.mem_cons, List.mem_singleton,
      List.not_mem_nil, or_false, false_or, reduceCtorEq, Call.QueryDo.injEq] at hc
  all_goals
    first
    | (rcases hc with rfl | hc
       · exact ⟨rfl, rfl⟩
       · exact absurd hc (rewriteAndExec_no_query _ _ _ _ _ _ _))
    | (subst hc; exact ⟨rfl, rfl⟩)

theorem resolve_query (w : World) (config : Config) (args : List GoString) (k : Nat)
    (dst : URL) (hostname port : GoString) (q : SearchQuery)
    (hc : Call.QueryDo q ∈ (resolve w config args k dst hostname port).calls) :
    q.Rows = 1 ∧ q.SortBy = "name".toList := by
  unfold resolve at hc
  dsimp only at hc
  repeat' split at hc
  all_goals
    simp only [calls_after, List.mem_append, List.mem_cons, List.mem_singleton,
      List.not_mem_nil, or_false, false_or, reduceCtorEq] at hc
  · exact absurd hc (lookupNode_no_query _ _ _ _ _ _ _ _)
  · exact lookupRole_query _ _ _ _ _ _ _ _ hc
  · exact absurd hc (rewriteAndExec_no_query _ _ _ _ _ _ _)

theorem main_query (w : World) (args : List GoString) (q : SearchQuery)
    (hc : Call.QueryDo q ∈ (main w args).calls) :
    q.Rows = 1 ∧ q.SortBy = "name".toList := by
  unfold main at hc
  dsimp only at hc
  split at hc
  · simp at hc
  · split at hc
    · exact absurd hc (ssh_no_query _ _ _)
    · split at hc
      · exact absurd hc (ssh_no_query _ _ _)
      · split at hc
        · exact absurd hc (ssh_no_query _ _ _)
        · exact resolve_query _ _ _ _ _ _ _ _ hc

/-! ## Searching for one byte -/

theorem Index_of_not_mem (c : Char) (s : GoString) (h : c ∉ s) : Index s [c] = none := by
  induction s with
  | nil => rfl
  | cons a t ih =>
    have hne : ¬ a = c := fun e => h (e ▸ List.mem_cons_self _ _)
    have ht : c ∉ t := fun m => h (List.mem_cons_of_mem _ m)
    simp [Index, HasPrefix_cons_singleton, hne, ih ht]

theorem LastIndex_of_not_mem (c : Char) (s : GoString) (h : c ∉ s) : LastIndex s [c] = none := by
  induction s with
  | nil => rfl
  | cons a t ih =>
    have hne : ¬ a = c := fun e => h (e ▸ List.mem_cons_self _ _)
    have ht : c ∉ t := fun m => h (List.mem_cons_of_mem _ m)
    simp [LastIndex, HasPrefix_cons_singleton, hne, ih ht]

theorem LastIndex_append (c : Char) (a b : GoString) (h : c ∉ b) :
    LastIndex (a ++ c :: b) [c] = some a.length := by
  induction a with
  | nil => simp [LastIndex, HasPrefix_cons_singleton, LastIndex_of_not_mem c b h]
  | cons x a ih => simp [LastIndex, ih]

theorem Cut_of_not_mem (c : Char) (s : GoString) (h : c ∉ s) : Cut s [c] = (s, [], false) := by
  simp [Cut, Index_of_not_mem c s h]

theorem Contains_of_not_mem (c : Char) (s : GoString) (h : c ∉ s) : Contains s [c] = false := by
  simp [Contains, Index_of_not_mem c s h]

theorem Count_of_not_mem (c : Char) (s : GoString) (h : c ∉ s) : Count s c = 0 := by
  simp [Count, List.count_eq_zero, h]

/-! ## Bytes of users, hosts and ports -/

theorem inRange_bounds (lo hi c : Char) (h : inRange lo hi c = true) :
    lo.toNat ≤ c.toNat ∧ c.toNat ≤ hi.toNat := by
  simpa [inRange] using h

theorem isLetter_bounds (c : Char) (h : isLetter c = true) : 65 ≤ c.toNat ∧ c.toNat ≤ 122 := by
  unfold isLetter at h
  rcases Bool.or_eq_true _ _ ▸ h with h | h
  · have := inRange_bounds _ _ _ h
    have h1 : 'a'.toNat = 97 := rfl
    have h2 : 'z'.toNat = 122 := rfl
    omega
  · have := inRange_bounds _ _ _ h
    have h1 : 'A'.toNat = 65 := rfl
    have h2 : 'Z'.toNat = 90 := rfl
    omega

theorem isDigit_bounds (c : Char) (h : isDigit c = true) : 48 ≤ c.toNat ∧ c.toNat ≤ 57 := by
  have := inRange_bounds _ _ _ h
  have h1 : '0'.toNat = 48 := rfl
  have h2 : '9'.toNat = 57 := rfl
  omega

theorem hostByte_of_isDigit (c : Char) (h : isDigit c = true) : hostByte c = true := by
  simp [hostByte, h]

theorem hostByte_not_special (c : Char) (h : hostByte c = true) : c ∉ "#?/@:[]%".toList := by
  intro hm
  simp only [String.toList, List.mem_cons, List.mem_singleton, List.not_mem_nil, or_false] at hm
  rcases hm with rfl | rfl | rfl | rfl | rfl | rfl | rfl | rfl <;> exact absurd h (by decide)

theorem hostByte_not_control (c : Char) (h : hostByte c = true) :
    32 ≤ c.toNat ∧ c.toNat ≠ 127 := by
  unfold hostByte at h
  simp only [Bool.or_eq_true, decide_eq_true_eq] at h
  rcases h with ((h | h) | h) | h
  · have := isLetter_bounds c h
    omega
  · have := isDigit_bounds c h
    omega
  · simp only [String.toList, List.contains_eq_any_beq, List.any_cons, List.any_nil,
      Bool.or_false, Bool.or_eq_true, beq_iff_eq] at h
    rcases h with rfl | rfl | rfl | rfl | rfl | rfl | rfl | rfl | rfl | rfl | rfl | rfl | rfl |
      rfl | rfl | rfl | rfl | rfl <;> decide
  · omega

theorem hostByte_shouldEscape (c : Char) (h : hostByte c = true) (hascii : c.toNat < 0x80) :
    shouldEscape c .encodeHost = false := by
  unfold hostByte at h
  simp only [Bool.or_eq_true, decide_eq_true_eq] at h
  rcases h with ((h | h) | h) | h
  · simp [shouldEscape, h]
  · simp [shouldEscape, h]
  · simp only [String.toList, List.contains_eq_any_beq, List.any_cons, List.any_nil,
      Bool.or_false, Bool.or_eq_true, beq_iff_eq] at h
    rcases h with rfl | rfl | rfl | rfl | rfl | rfl | rfl | rfl | rfl | rfl | rfl | rfl | rfl |
      rfl | rfl | rfl | rfl | rfl <;> decide
  · omega

theorem userByte_not_special (c : Char) (h : userByte c = true) : c ∉ "#?/:%".toList := by
  intro hm
  simp only [String.toList, List.mem_cons, List.mem_singleton, List.not_mem_nil, or_false] at hm
  rcases hm with rfl | rfl | rfl | rfl | rfl <;> exact absurd h (by decide)

theorem userByte_not_control (c : Char) (h : userByte c = true) :
    32 ≤ c.toNat ∧ c.toNat ≠ 127 := by
  unfold userByte at h
  simp only [Bool.or_eq_true, decide_eq_true_eq] at h
  rcases h with (h | h) | h
  · have := isLetter_bounds c h
    omega
  · have := isDigit_bounds c h
    omega
  · simp only [String.toList, List.contains_eq_any_beq, List.any_cons, List.any_nil,
      Bool.or_false, Bool.or_eq_true, beq_iff_eq] at h
    rcases h with rfl | rfl | rfl | rfl | rfl | rfl | rfl | rfl | rfl | rfl | rfl | rfl | rfl |
      rfl | rfl | rfl <;> decide

theorem userByte_valid (c : Char) (h : userByte c = true) :
    (isLetter c || isDigit c || "-._:~!$&'()*+,;=%@".toList.contains c) = true := by
  unfold userByte at h
  simp only [Bool.or_eq_true, decide_eq_true_eq] at h
  rcases h with (h | h) | h
  · simp [h]
  · simp [h]
  · simp only [String.toList, List.contains_eq_any_beq, List.any_cons, List.any_nil,
      Bool.or_false, Bool.or_eq_true, beq_iff_eq] at h
    rcases h with rfl | rfl | rfl | rfl | rfl | rfl | rfl | rfl | rfl | rfl | rfl | rfl | rfl |
      rfl | rfl | rfl <;> decide

/-! ## Parsing a plain destination -/

theorem unescapeScan_plain (mode : encoding) (hmode : mode ≠ .encodeQueryComponent)
    (s : GoString) (n : Nat)
    (hsafe : ∀ c ∈ s, c ≠ '%' ∧
      ((mode == .encodeHost || mode == .encodeZone) && decide (c.toNat < 0x80) &&
        shouldEscape c .encodeHost) = false) :
    unescapeScan mode s n false = .ok (n, false) := by
  induction s with
  | nil => rfl
  | cons c rest ih =>
    have hc := hsafe c (List.mem_cons_self _ _)
    have hrest := ih (fun d hd => hsafe d (List.mem_cons_of_mem _ hd))
    have hq : (mode == encoding.encodeQueryComponent) = false := by simpa using hmode
    unfold unescapeScan
    rw [if_neg hc.1]
    by_cases hplus : c = '+'
    · rw [if_pos hplus, hq]
      exact hrest
    · rw [if_neg hplus, hc.2]
      exact hrest

theorem unescape_plain (mode : encoding) (hmode : mode ≠ .encodeQueryComponent)
    (s : GoString)
    (hsafe : ∀ c ∈ s, c ≠ '%' ∧
      ((mode == .encodeHost || mode == .encodeZone) && decide (c.toNat < 0x80) &&
        shouldEscape c .encodeHost) = false) :
    unescape s mode = .ok s := by
  unfold unescape
  rw [unescapeScan_plain mode hmode s 0 hsafe]
  rfl

theorem hostByte_unescape (c : Char) (h : hostByte c = true ∨ c = ':') :
    c ≠ '%' ∧ ((encoding.encodeHost == .encodeHost || encoding.encodeHost == .encodeZone) &&
      decide (c.toNat < 0x80) && shouldEscape c .encodeHost) = false := by
  rcases h with h | rfl
  · refine ⟨fun e => hostByte_not_special c h (e ▸ by decide), ?_⟩
    by_cases hascii : c.toNat < 0x80
    · simp [hostByte_shouldEscape c h hascii]
    · simp [hascii]
  · decide

theorem mem_hostPort (host : GoString) (port : Option GoString) (c : Char)
    (hhost : ∀ c ∈ host, hostByte c = true)
    (hport : ∀ p, port = some p → ∀ c ∈ p, isDigit c = true)
    (hc : c ∈ hostPort host port) : hostByte c = true ∨ c = ':' := by
  cases port with
  | none => exact Or.inl (hhost c hc)
  | some p =>
    simp only [hostPort, List.mem_append, List.mem_cons] at hc
    rcases hc with hc | rfl | hc
    · exact Or.inl (hhost c hc)
    · exact Or.inr rfl
    · exact Or.inl (hostByte_of_isDigit c (hport p rfl c hc))

theorem HasPrefix_hostPort (host : GoString) (port : Option GoString)
    (hhost : ∀ c ∈ host, hostByte c = true) :
    HasPrefix (hostPort host port) "[".toList = false := by
  cases host with
  | nil => cases port <;> simp [hostPort, HasPrefix]
  | cons c t =>
    have hc : c ≠ '[' := fun e =>
      hostByte_not_special c (hhost c (List.mem_cons_self _ _)) (e ▸ by decide)
    cases port <;> simp [hostPort, HasPrefix, hc]

theorem colon_not_mem_host (host : GoString) (hhost : ∀ c ∈ host, hostByte c = true) :
    ':' ∉ host :=
  fun hm => hostByte_not_special ':' (hhost _ hm) (by decide)

theorem colon_not_mem_port (p : GoString) (hp : ∀ c ∈ p, isDigit c = true) : ':' ∉ p :=
  fun hm => absurd (hp _ hm) (by decide)

theorem parseHost_hostPort (host : GoString) (port : Option GoString)
    (hhost : ∀ c ∈ host, hostByte c = true)
    (hport : ∀ p, port = some p → ∀ c ∈ p, isDigit c = true) :
    parseHost (hostPort host port) = .ok (hostPort host port) := by
  have hplain : unescape (hostPort host port) .encodeHost = .ok (hostPort host port) :=
    unescape_plain .encodeHost (by decide) _
      (fun c hc => hostByte_unescape c (mem_hostPort host port c hhost hport hc))
  unfold parseHost
  rw [HasPrefix_hostPort host port hhost]
  cases port with
  | none =>
    have hlast : LastIndex (hostPort host none) ":".toList = none :=
      LastIndex_of_not_mem ':' host (colon_not_mem_host host hhost)
    simp only [hlast, hplain]
    rfl
  | some p =>
    have hdigits := hport p rfl
    have hlast : LastIndex (hostPort host (some p)) ":".toList = some host.length :=
      LastIndex_append ':' host p (colon_not_mem_port p hdigits)
    have hvalid : validOptionalPort ((hostPort host (some p)).drop host.length) = true := by
      simp only [hostPort, List.drop_left', validOptionalPort]
      simpa using hdigits
    simp only [hlast, hvalid, hplain]
    rfl

theorem mem_hostPort_not_special (host : GoString) (port : Option GoString) (c : Char)
    (hhost : ∀ c ∈ host, hostByte c = true)
    (hport : ∀ p, port = some p → ∀ c ∈ p, isDigit c = true)
    (hc : c ∈ hostPort host port) :
    32 ≤ c.toNat ∧ c.toNat ≠ 127 ∧ c ∉ "#?/@".toList := by
  rcases mem_hostPort host port c hhost hport hc with h | rfl
  · have h1 := hostByte_not_control c h
    have h2 := hostByte_not_special c h
    refine ⟨h1.1, h1.2, fun hm => h2 ?_⟩
    simp only [String.toList, List.mem_cons, List.mem_singleton, List.not_mem_nil,
      or_false] at hm ⊢
    tauto
  · decide

theorem parseAuthority_destination (user : Option GoString) (host : GoString)
    (port : Option GoString)
    (huser : ∀ u, user = some u → ∀ c ∈ u, userByte c = true)
    (hhost : ∀ c ∈ host, hostByte c = true)
    (hport : ∀ p, port = some p → ∀ c ∈ p, isDigit c = true) :
    parseAuthority (destination user host port) =
      .ok (user.map (fun u => ⟨u, [], false⟩), hostPort host port) := by
  have hat : '@' ∉ hostPort host port := fun hm =>
    (mem_hostPort_not_special host port '@' hhost hport hm).2.2 (by decide)
  unfold parseAuthority
  cases user with
  | none =>
    have hlast : LastIndex (hostPort host port) "@".toList = none :=
      LastIndex_of_not_mem '@' _ hat
    simp only [destination, hlast, parseHost_hostPort host port hhost hport]
    rfl
  | some u =>
    have hu := huser u rfl
    have hlast : LastIndex (u ++ '@' :: hostPort host port) "@".toList = some u.length :=
      LastIndex_append '@' u _ hat
    have hvalid : validUserinfo u = true := by
      unfold validUserinfo
      rw [List.all_eq_true]
      exact fun c hc => userByte_valid c (hu c hc)
    have hcolon : Contains u ":".toList = false :=
      Contains_of_not_mem ':' u (fun hm => userByte_not_special ':' (hu _ hm) (by decide))
    have hplain : unescape u .encodeUserPassword = .ok u :=
      unescape_plain .encodeUserPassword (by decide) u
        (fun c hc => ⟨fun e => userByte_not_special c (hu c hc) (e ▸ by decide), by simp⟩)
    have hdrop : (u ++ '@' :: hostPort host port).drop (u.length + 1) = hostPort host port := by
      simp
    have htake : (u ++ '@' :: hostPort host port).take u.length = u := by
      simp
    simp only [destination, hlast, hdrop, htake, parseHost_hostPort host port hhost hport, hvalid, hcolon,
      hplain]
    rfl

theorem parse_ssh (tok : GoString) (user : Option Userinfo) (host : GoString)
    (hbytes : ∀ c ∈ tok, 32 ≤ c.toNat ∧ c.toNat ≠ 127 ∧ c ≠ '?' ∧ c ≠ '/')
    (hauth : parseAuthority tok = .ok (user, host)) :
    parse ("ssh://".toList ++ tok) false =
      .ok { URL.zero with Scheme := "ssh".toList, User := user, Host := host } := by
  have hctl : stringContainsCTLByte ("ssh://".toList ++ tok) = false := by
    have htok : stringContainsCTLByte tok = false := by
      unfold stringContainsCTLByte
      rw [List.any_eq_false]
      intro c hc
      have := hbytes c hc
      have h32 : ' '.toNat = 32 := rfl
      simp only [Bool.or_eq_true, decide_eq_true_eq, beq_iff_eq, h32]
      omega
    have happ : stringContainsCTLByte ("ssh://".toList ++ tok) =
        (stringContainsCTLByte "ssh://".toList || stringContainsCTLByte tok) := by
      unfold stringContainsCTLByte
      exact List.any_append
    rw [happ, htok]
    rfl
  have hscheme : getScheme ("ssh://".toList ++ tok) = .ok ("ssh".toList, "//".toList ++ tok) :=
    rfl
  have hquery : '?' ∉ "//".toList ++ tok := by
    intro hm
    rcases List.mem_append.1 hm with hm | hm
    · exact absurd hm (by decide)
    · exact (hbytes _ hm).2.2.1 rfl
  have hslash : Index tok "/".toList = none :=
    Index_of_not_mem '/' tok (fun hm => (hbytes _ hm).2.2.2 rfl)
  have hcount : Count ("//".toList ++ tok) '?' = 0 := Count_of_not_mem '?' _ hquery
  have hcut : Cut ("//".toList ++ tok) "?".toList = ("//".toList ++ tok, [], false) :=
    Cut_of_not_mem '?' _ hquery
  have hnil : ("ssh://".toList ++ tok == []) = false := rfl
  have hstar : ("ssh://".toList ++ tok == "*".toList) = false := rfl
  have hp1 : HasPrefix ("//".toList ++ tok) "/".toList = true := rfl
  have hp2 : HasPrefix ("//".toList ++ tok) "//".toList = true := by simp [HasPrefix]
  have hlower : ToLower "ssh".toList = "ssh".toList := rfl
  have hdrop : ("//".toList ++ tok).drop 2 = tok := rfl
  have hpath : ∀ u : URL, setPath u [] = .ok { u with Path := [] } := fun _ => rfl
  have hforced : (HasSuffix ("//".toList ++ tok) "?".toList &&
      Count ("//".toList ++ tok) '?' == 1) = false := by
    rw [hcount]
    simp
  have hssh : ("ssh".toList != []) = true := rfl
  unfold parse
  simp only [hctl, hnil, hstar, hscheme, hforced, hcut, hp1, hp2, hlower, hdrop, hslash, hauth,
    hpath, hssh, Bool.false_eq_true, ↓reduceIte, Bool.not_true, Bool.false_and, Bool.and_false,
    Bool.true_or, Bool.and_true, Bool.and_self]
  rfl

theorem mem_destination (user : Option GoString) (host : GoString) (port : Option GoString)
    (c : Char)
    (huser : ∀ u, user = some u → ∀ c ∈ u, userByte c = true)
    (hhost : ∀ c ∈ host, hostByte c = true)
    (hport : ∀ p, port = some p → ∀ c ∈ p, isDigit c = true)
    (hc : c ∈ destination user host port) :
    32 ≤ c.toNat ∧ c.toNat ≠ 127 ∧ c ≠ '?' ∧ c ≠ '/' ∧ c ≠ '#' := by
  have hhp : ∀ d ∈ hostPort host port,
      32 ≤ d.toNat ∧ d.toNat ≠ 127 ∧ d ≠ '?' ∧ d ≠ '/' ∧ d ≠ '#' := by
    intro d hd
    have h := mem_hostPort_not_special host port d hhost hport hd
    exact ⟨h.1, h.2.1, fun e => h.2.2 (e ▸ by decide), fun e => h.2.2 (e ▸ by decide),
      fun e => h.2.2 (e ▸ by decide)⟩
  cases user with
  | none => exact hhp c hc
  | some u =>
    simp only [destination, List.mem_append, List.mem_cons] at hc
    rcases hc with hc | rfl | hc
    · have hu := huser u rfl c hc
      have h1 := userByte_not_control c hu
      have h2 := userByte_not_special c hu
      exact ⟨h1.1, h1.2, fun e => h2 (e ▸ by decide), fun e => h2 (e ▸ by decide),
        fun e => h2 (e ▸ by decide)⟩
    · decide
    · exact hhp c hc

/-- `url.Parse` on `ssh://` followed by a destination of plain bytes: the
user and the text `host[:port]` come back unchanged. -/
theorem Parse_destination (user : Option GoString) (host : GoString) (port : Option GoString)
    (huser : ∀ u, user = some u → ∀ c ∈ u, userByte c = true)
    (hhost : ∀ c ∈ host, hostByte c = true)
    (hport : ∀ p, port = some p → ∀ c ∈ p, isDigit c = true) :
    Parse ("ssh://".toList ++ destination user host port) =
      .ok (sshURL user (hostPort host port)) := by
  have hmem := fun c hc => mem_destination user host port c huser hhost hport hc
  have hfrag : '#' ∉ "ssh://".toList ++ destination user host port := by
    intro hm
    rcases List.mem_append.1 hm with hm | hm
    · exact absurd hm (by decide)
    · exact (hmem _ hm).2.2.2.2 rfl
  have hparse := parse_ssh (destination user host port) _ _
    (fun c hc => ⟨(hmem c hc).1, (hmem c hc).2.1, (hmem c hc).2.2.1, (hmem c hc).2.2.2.1⟩)
    (parseAuthority_destination user host port huser hhost hport)
  have hcut : Cut ("ssh://".toList ++ destination user host port) "#".toList =
      ("ssh://".toList ++ destination user host port, [], false) := Cut_of_not_mem '#' _ hfrag
  unfold Parse
  rw [hcut]
  simp only [hparse]
  rfl

theorem hostAndPort_hostPort (host : GoString) (port : Option GoString)
    (hhost : ∀ c ∈ host, hostByte c = true)
    (hport : ∀ p, port = some p → ∀ c ∈ p, isDigit c = true) :
    hostAndPort (hostPort host port) = (host, port.getD []) := by
  unfold hostAndPort SplitHostPort
  cases port with
  | none =>
    have hlast : LastIndex (hostPort host none) ":".toList = none :=
      LastIndex_of_not_mem ':' host (colon_not_mem_host host hhost)
    simp only [hlast]
    rfl
  | some p =>
    have hdigits := hport p rfl
    have hlast : LastIndex (hostPort host (some p)) ":".toList = some host.length :=
      LastIndex_append ':' host p (colon_not_mem_port p hdigits)
    have hhead : ((hostPort host (some p)).head? == some '[') = false := by
      cases host with
      | nil => rfl
      | cons c t =>
        have hc : c ≠ '[' := fun e =>
          hostByte_not_special c (hhost c (List.mem_cons_self _ _)) (e ▸ by decide)
        simpa [hostPort] using hc
    have htake : (hostPort host (some p)).take host.length = host := by simp [hostPort]
    have hdrop : (hostPort host (some p)).drop (host.length + 1) = p := by simp [hostPort]
    have hcolon : Index host ":".toList = none :=
      Index_of_not_mem ':' host (colon_not_mem_host host hhost)
    have hopen : Index ((hostPort host (some p)).drop 0) "[".toList = none :=
      Index_of_not_mem '[' _ (fun hm =>
        (mem_hostPort host (some p) _ hhost hport hm).elim
          (fun h => hostByte_not_special _ h (by decide)) (by decide))
    have hclose : Index ((hostPort host (some p)).drop 0) "]".toList = none :=
      Index_of_not_mem ']' _ (fun hm =>
        (mem_hostPort host (some p) _ hhost hport hm).elim
          (fun h => hostByte_not_special _ h (by decide)) (by decide))
    simp only [hlast, hhead, htake, hdrop, hcolon, hopen, hclose]
    rfl

/-! ## Writing the destination back -/

theorem joinHostPort_hostPort (host : GoString) (port : Option GoString) (hcolon : ':' ∉ host)
    (hport : ∀ p, port = some p → p ≠ []) :
    joinHostPort host (port.getD []) = hostPort host port := by
  cases port with
  | none => rfl
  | some p =>
    have hne : (p == []) = false := by simpa using hport p rfl
    have hidx : (Index host ":".toList).isSome = false := by
      have h : Index host ":".toList = none := Index_of_not_mem ':' host hcolon
      rw [h]
      rfl
    simp only [joinHostPort, Option.getD_some, hne, JoinHostPort, hidx, hostPort]
    simp

theorem formatURL_sshURL (user : Option GoString) (old host : GoString)
    (huser : ∀ u, user = some u → u ≠ []) :
    formatURL { sshURL user old with Host := host } =
      match user with
      | some u => u ++ '@' :: host
      | none => host := by
  cases user with
  | none => rfl
  | some u =>
    have hne : (u == []) = false := by simpa using huser u rfl
    simp only [formatURL, sshURL, Username, Option.map_some', Option.isNone_some, hne]
    simp

/-- C5 (amended): a destination `[user@]host[:port]` whose user is not
empty and made of bytes that `validUserinfo` accepts other than `:` and `%`,
whose host is made of bytes outside ASCII or left unescaped in a host other
than `:`, `[` and `]`, and whose port is a non-empty run of digits, parses,
and written back with its host unchanged it is the token itself. -/
theorem roundTrip_destination (user : Option GoString) (host : GoString)
    (port : Option GoString)
    (huser : ∀ u, user = some u → u ≠ [] ∧ ∀ c ∈ u, userByte c = true)
    (hhost : ∀ c ∈ host, hostByte c = true)
    (hport : ∀ p, port = some p → p ≠ [] ∧ ∀ c ∈ p, isDigit c = true) :
    roundTrip (destination user host port) = some (destination user host port) := by
  have hu := fun u hu => (huser u hu).2
  have hp := fun p hp => (hport p hp).2
  unfold roundTrip
  rw [Parse_destination user host port hu hhost hp]
  have hsplit : hostAndPort (sshURL user (hostPort host port)).Host = (host, port.getD []) :=
    hostAndPort_hostPort host port hhost hp
  simp only [hsplit]
  rw [joinHostPort_hostPort host port (colon_not_mem_host host hhost)
    (fun p hp => (hport p hp).1), formatURL_sshURL user _ _ (fun u hu => (huser u hu).1)]
  cases user <;> rfl

/-- C5 (amended) at `user@host:2222`. -/
theorem roundTrip_destination_witness :
    roundTrip "user@host:2222".toList = some "user@host:2222".toList :=
  roundTrip_destination (some "user".toList) "host".toList (some "2222".toList)
    (fun u hu => by
      obtain rfl : "user".toList = u := Option.some.inj hu
      exact ⟨by decide, by decide⟩)
    (by decide)
    (fun p hp => by
      obtain rfl : "2222".toList = p := Option.some.inj hp
      exact ⟨by decide, by decide⟩)

/-- C5 (counterexample): a user with an escape is written back unescaped,
and a user with a password is written back without it. -/
theorem roundTrip_changes_user :
    roundTrip "us%65r@host:2222".toList = some "user@host:2222".toList ∧
    roundTrip "user:secret@host:2222".toList = some "user@host:2222".toList := by
  decide

/-! ## The rewrite -/

theorem getLookupType_node (name : GoString) :
    getLookupType (name ++ ".node".toList) = (LOOKUP_NODE, none) :=
  (getLookupType_cases _).1.2 ⟨name, rfl⟩

theorem getLookupType_role (name : GoString) :
    getLookupType (name ++ ".role".toList) = (LOOKUP_ROLE, none) :=
  (getLookupType_cases _).2.1.2 ⟨name, rfl⟩

theorem set_destination (flags : List GoString) (t v : GoString) (rest : List GoString) :
    (flags ++ t :: rest).set flags.length v = flags ++ v :: rest := by
  induction flags with
  | nil => rfl
  | cons a flags ih => simp [ih]

theorem rewriteAndExec_sshURL (w : World) (flags : List GoString) (t : GoString)
    (rest : List GoString) (user : Option GoString) (old ip : GoString) (port : Option GoString)
    (huser : ∀ u, user = some u → u ≠ []) (hport : ∀ p, port = some p → p ≠ [])
    (hip : ':' ∉ ip) :
    rewriteAndExec w (flags ++ t :: rest) flags.length (sshURL user old) ip (port.getD []) =
      ssh w (flags ++ destination user ip port :: rest) := by
  unfold rewriteAndExec
  simp only [joinHostPort_hostPort ip port hip hport, set_destination]
  have hformat := formatURL_sshURL user old (hostPort ip port) huser
  have hdest : formatURL { sshURL user old with Host := hostPort ip port } =
      destination user ip port := by
    rw [hformat]
    cases user <;> rfl
  rw [hdest]

theorem resolve_node (w : World) (config : Config) (args : List GoString) (k : Nat) (dst : URL)
    (name port key ip : GoString) (node : Node)
    (hkey : w.readFile config.userKey = .ok key)
    (hclient : w.newClient config.user key (config.serverURL ++ "/".toList) = none)
    (hget : w.nodesGet name = .ok node)
    (hattr : mapIndex node.NormalAttributes config.ipAttribute = .string ip) :
    resolve w config args k dst (name ++ ".node".toList) port =
      (rewriteAndExec w args k dst ip port).after (nodeLookupCalls config key name) := by
  unfold resolve
  simp only [hkey, hclient, getLookupType_node]
  unfold lookupNode
  simp only [take_node, hget, hattr, assertString]
  rfl

theorem resolve_role (w : World) (config : Config) (args : List GoString) (k : Nat) (dst : URL)
    (name port key ip : GoString) (query : SearchQuery) (result : SearchResult)
    (fields normal : Attributes)
    (hkey : w.readFile config.userKey = .ok key)
    (hclient : w.newClient config.user key (config.serverURL ++ "/".toList) = none)
    (hquery : w.newQuery "node".toList ("role:".toList ++ name) = .ok query)
    (hdo : w.queryDo { query with Rows := 1, SortBy := "name".toList } = .ok result)
    (htotal : result.Total ≠ 0)
    (hrow : result.Rows.head? = some (.object fields))
    (hnormal : mapIndex fields "normal".toList = .object normal)
    (hattr : mapIndex normal config.ipAttribute = .string ip) :
    resolve w config args k dst (name ++ ".role".toList) port =
      (rewriteAndExec w args k dst ip port).after (roleLookupCalls config key name query) := by
  unfold resolve
  simp only [hkey, hclient, getLookupType_role]
  unfold lookupRole
  have h0 : (result.Total == 0) = false := by simpa using htotal
  simp only [take_role, hquery, hdo, h0, hrow, assertMap, hnormal, hattr, assertString]
  rfl

theorem destination_ne_nil (user : Option GoString) (host : GoString) (port : Option GoString)
    (hhost : host ≠ []) : destination user host port ≠ [] := by
  cases user <;> cases port <;> simp [destination, hostPort, hhost]

/-- C4 (amended): let the destination be `[u@]n.node<tag>[:p]` or
`[u@]n.role<tag>[:p]`, not starting with `-` and preceded only by arguments
that start with `-`, where `u`, if present, is not empty and made of bytes
that `validUserinfo` accepts other than `:` and `%`, `n` and the tag are made
of bytes outside ASCII or left unescaped in a host other than `:`, `[` and
`]`, and `p`, if present, is a non-empty run of digits. Let the key file be
read and the client be set up, and let the lookup of `n` give the string `ip`
without colon for the configured attribute: for `.node`, `Nodes.Get` of `n`
succeeds and the attribute of the node is the string `ip`; for `.role`,
`NewQuery` on `role:n` and `query.Do` succeed, the `Total` of the result is
not zero, and its first row is a map whose `normal` entry is a map in which
the attribute is the string `ip`. Then `main` makes these calls and no other
before the handoff (the inventory is asked for `n`), and hands to `ssh` the
arguments with the destination replaced by exactly `[u@]ip[:p]`. -/
theorem main_rewrites_destination (w : World) (flags rest : List GoString)
    (user : Option GoString) (name kind : GoString) (port : Option GoString)
    (key ip : GoString) (node : Node) (query : SearchQuery) (result : SearchResult)
    (fields normal : Attributes)
    (hflags : ∀ a ∈ flags, HasPrefix a "-".toList = true)
    (hdash : HasPrefix (destination user (name ++ kind ++ (configFromEnv w).tld) port)
      "-".toList = false)
    (huser : ∀ u, user = some u → u ≠ [] ∧ ∀ c ∈ u, userByte c = true)
    (hname : ∀ c ∈ name, hostByte c = true)
    (htag : ∀ c ∈ (configFromEnv w).tld, hostByte c = true)
    (hport : ∀ p, port = some p → p ≠ [] ∧ ∀ c ∈ p, isDigit c = true)
    (hip : ':' ∉ ip)
    (hkey : w.readFile (configFromEnv w).userKey = .ok key)
    (hclient : w.newClient (configFromEnv w).user key
      ((configFromEnv w).serverURL ++ "/".toList) = none)
    (hlookup :
      (kind = ".node".toList ∧ w.nodesGet name = .ok node ∧
        mapIndex node.NormalAttributes (configFromEnv w).ipAttribute = .string ip) ∨
      (kind = ".role".toList ∧
        w.newQuery "node".toList ("role:".toList ++ name) = .ok query ∧
        w.queryDo { query with Rows := 1, SortBy := "name".toList } = .ok result ∧
        result.Total ≠ 0 ∧ result.Rows.head? = some (.object fields) ∧
        mapIndex fields "normal".toList = .object normal ∧
        mapIndex normal (configFromEnv w).ipAttribute = .string ip)) :
    main w (flags ++ destination user (name ++ kind ++ (configFromEnv w).tld) port :: rest) =
      (ssh w (flags ++ destination user ip port :: rest)).after
        (if kind = ".node".toList then nodeLookupCalls (configFromEnv w) key name
          else roleLookupCalls (configFromEnv w) key name query) := by
  have hkind : ∀ c ∈ kind, hostByte c = true := by
    rcases hlookup with ⟨rfl, _⟩ | ⟨rfl, _⟩ <;> decide
  have hkindne : kind ≠ [] := by
    rcases hlookup with ⟨rfl, _⟩ | ⟨rfl, _⟩ <;> decide
  have hhost : ∀ c ∈ name ++ kind ++ (configFromEnv w).tld, hostByte c = true := by
    intro c hc
    rcases List.mem_append.1 hc with hc | hc
    · rcases List.mem_append.1 hc with hc | hc
      · exact hname c hc
      · exact hkind c hc
    · exact htag c hc
  have hu := fun u hu => (huser u hu).2
  have hp := fun p hp => (hport p hp).2
  have hne : destination user (name ++ kind ++ (configFromEnv w).tld) port ≠ [] :=
    destination_ne_nil _ _ _ (by simp [hkindne])
  have hparse := Parse_destination user (name ++ kind ++ (configFromEnv w).tld) port hu hhost hp
  have hsplit : hostAndPort (sshURL user
      (hostPort (name ++ kind ++ (configFromEnv w).tld) port)).Host =
      (name ++ kind ++ (configFromEnv w).tld, port.getD []) :=
    hostAndPort_hostPort _ port hhost hp
  have hmain := main_of_tagged w flags _ rest _ (name ++ kind) hflags hne hdash hparse
    (by rw [hsplit])
  rw [hmain, hsplit]
  have hexec := rewriteAndExec_sshURL w flags
    (destination user (name ++ kind ++ (configFromEnv w).tld) port) rest user
    (hostPort (name ++ kind ++ (configFromEnv w).tld) port) ip port
    (fun u hu => (huser u hu).1) (fun p hp => (hport p hp).1) hip
  rcases hlookup with ⟨rfl, hget, hattr⟩ | ⟨rfl, hquery, hdo, htotal, hrow, hnormal, hattr⟩
  · rw [resolve_node w _ _ _ _ name _ key ip node hkey hclient hget hattr, hexec]
    rfl
  · rw [resolve_role w _ _ _ _ name _ key ip query result fields normal hkey hclient hquery hdo
      htotal hrow hnormal hattr, hexec]
    rfl

/-- C4 (amended) at `-v user@myhost.node.chef`, where `myhost` has the
address `10.0.0.5`: the destination becomes `user@10.0.0.5`. -/
theorem main_rewrites_destination_witness :
    (main (sampleWorld noMatch) ["-v".toList, "user@myhost.node.chef".toList]).exit =
      .exec "/usr/bin/ssh".toList ["ssh".toList, "-v".toList, "user@10.0.0.5".toList] [] :=
  congrArg Run.exit
    (main_rewrites_destination (sampleWorld noMatch) ["-v".toList] [] (some "user".toList)
      "myhost".toList ".node".toList none "key".toList "10.0.0.5".toList
      ⟨[("ipaddress".toList, .string "10.0.0.5".toList)]⟩ ⟨[], [], [], 0, 0⟩ noMatch [] []
      (by decide) (by decide)
      (fun u hu => by
        obtain rfl : "user".toList = u := Option.some.inj hu
        exact ⟨by decide, by decide⟩)
      (by decide) (by decide) (fun p hp => by simp at hp) (by decide) rfl rfl
      (Or.inl ⟨rfl, rfl, rfl⟩))

/-- C4 (counterexample): the node `web:1` has the address `10.0.0.5`, but
the destination `web:1.node.chef` does not parse (the text after the last
colon is not a port), so `main` hands it to `ssh` unchanged and asks the
inventory nothing; and the destination `us%65r@myhost.node.chef` is
rewritten with the user `user`, not `us%65r`. -/
theorem main_does_not_rewrite_every_name_and_user :
    (sampleWorld noMatch).nodesGet "web:1".toList =
      .ok ⟨[("ipaddress".toList, .string "10.0.0.5".toList)]⟩ ∧
    main (sampleWorld noMatch) ["web:1.node.chef".toList] =
      ⟨[.LookPath "ssh".toList,
          .Exec "/usr/bin/ssh".toList ["ssh".toList, "web:1.node.chef".toList] []],
        .exec "/usr/bin/ssh".toList ["ssh".toList, "web:1.node.chef".toList] []⟩ ∧
    (main (sampleWorld noMatch) ["us%65r@myhost.node.chef".toList]).exit =
      .exec "/usr/bin/ssh".toList ["ssh".toList, "user@10.0.0.5".toList] [] := by
  exact ⟨rfl, by decide, by decide⟩

/-! ## The row of the group query -/

/-- C10 (amended): on a destination that parses and whose host is `n.role`
followed by the domain tag, once the key file is read and the client is set up
and `NewQuery` on `role:n` succeeds, `main` sends the query with `Rows = 1`
and `SortBy = "name"`; when the answer has a `Total` other than zero and its
first row, in the order the service returned the rows, is a map whose `normal`
entry is a map in which the attribute is the string `ip`, `main` hands to
`ssh` the arguments with the host of the destination replaced by that `ip`,
whatever rows follow the first. And of any answer `main` reads only whether
`Total` is zero and the first row: a service whose answers agree with this
one on these gives the same run. -/
theorem main_uses_first_row_of_response (w : World) (flags : List GoString) (t : GoString)
    (rest : List GoString) (dst : URL) (name key ip : GoString) (query : SearchQuery)
    (result : SearchResult) (fields normal : Attributes) (others : List Value)
    (hflags : ∀ a ∈ flags, HasPrefix a "-".toList = true)
    (hdash : HasPrefix t "-".toList = false)
    (hparse : Parse ("ssh://".toList ++ t) = .ok dst)
    (hhost : (hostAndPort dst.Host).1 = name ++ ".role".toList ++ (configFromEnv w).tld)
    (hkey : w.readFile (configFromEnv w).userKey = .ok key)
    (hclient : w.newClient (configFromEnv w).user key
      ((configFromEnv w).serverURL ++ "/".toList) = none)
    (hquery : w.newQuery "node".toList ("role:".toList ++ name) = .ok query)
    (hdo : w.queryDo { query with Rows := 1, SortBy := "name".toList } = .ok result)
    (htotal : result.Total ≠ 0)
    (hrows : result.Rows = .object fields :: others)
    (hnormal : mapIndex fields "normal".toList = .object normal)
    (hattr : mapIndex normal (configFromEnv w).ipAttribute = .string ip) :
    main w (flags ++ t :: rest) =
      (ssh w (flags ++
        formatURL { dst with Host := joinHostPort ip (hostAndPort dst.Host).2 } :: rest)).after
        (roleLookupCalls (configFromEnv w) key name query) ∧
    ∀ f, (∀ q, sameFirstRow (w.queryDo q) (f q)) →
      main { w with queryDo := f } (flags ++ t :: rest) = main w (flags ++ t :: rest) := by
  refine ⟨?_, fun f hf => main_queryDo w f _ hf⟩
  have hne : t ≠ [] := by
    rintro rfl
    rw [Parse_empty] at hparse
    obtain rfl : sshURL none [] = dst := Except.ok.inj hparse
    have hnil : name ++ ".role".toList ++ (configFromEnv w).tld = [] := hhost.symm
    exact configFromEnv_tld_ne_nil w (List.append_eq_nil.1 hnil).2
  have hrow : result.Rows.head? = some (.object fields) := by
    rw [hrows]
    rfl
  rw [main_of_tagged w flags t rest dst (name ++ ".role".toList) hflags hne hdash hparse hhost,
    resolve_role w _ _ _ _ name _ key ip query result fields normal hkey hclient hquery hdo
      htotal hrow hnormal hattr]
  unfold rewriteAndExec
  simp only [set_destination]

/-- C10 (amended) at `build.role.chef`, where the service returns the row of
`zeta` before the row of `alpha`: `main` connects to the address of `zeta`. -/
theorem main_uses_first_row_of_response_witness :
    (main (sampleWorld ⟨2, 0, [nodeRow "zeta".toList "10.0.0.9".toList,
        nodeRow "alpha".toList "10.0.0.1".toList]⟩) ["build.role.chef".toList]).calls =
      roleLookupCalls (configFromEnv (sampleWorld noMatch)) "key".toList "build".toList
          ⟨"node".toList, "role:build".toList, "X_CHEF_id_CHEF_X asc".toList, 0, 1000⟩ ++
        [.LookPath "ssh".toList,
          .Exec "/usr/bin/ssh".toList ["ssh".toList, "10.0.0.9".toList] []] :=
  congrArg Run.calls
    (main_uses_first_row_of_response
      (sampleWorld ⟨2, 0, [nodeRow "zeta".toList "10.0.0.9".toList,
        nodeRow "alpha".toList "10.0.0.1".toList]⟩)
      [] "build.role.chef".toList [] (sshURL none "build.role.chef".toList)
      "build".toList "key".toList "10.0.0.9".toList
      ⟨"node".toList, "role:build".toList, "X_CHEF_id_CHEF_X asc".toList, 0, 1000⟩
      ⟨2, 0, [nodeRow "zeta".toList "10.0.0.9".toList, nodeRow "alpha".toList "10.0.0.1".toList]⟩
      [("name".toList, .string "zeta".toList),
        ("normal".toList, .object [("ipaddress".toList, .string "10.0.0.9".toList)])]
      [("ipaddress".toList, .string "10.0.0.9".toList)]
      [nodeRow "alpha".toList "10.0.0.1".toList]
      (by decide) (by decide) rfl (by decide) rfl rfl rfl rfl (by decide) rfl rfl rfl).1

/-! ## The attribute of the record -/

/-- The node lookup ends with the fatal error when the attribute is absent or
not a string. -/
theorem lookupNode_missing_attribute (w : World) (config : Config) (args : List GoString)
    (k : Nat) (dst : URL) (name port : GoString) (node : Node)
    (hget : w.nodesGet name = .ok node)
    (hattr : assertString (mapIndex node.NormalAttributes config.ipAttribute) = none) :
    lookupNode w config args k dst (name ++ ".node".toList) port =
      ⟨[.NodesGet name], .fatal "No ip address could be found for node.".toList⟩ := by
  unfold lookupNode
  simp only [take_node, hget, hattr]

/-- The role lookup ends with the fatal error when the first row is a map
with a map under `normal` in which the attribute is absent or not a string. -/
theorem lookupRole_missing_attribute (w : World) (config : Config) (args : List GoString)
    (k : Nat) (dst : URL) (name port : GoString) (query : SearchQuery) (result : SearchResult)
    (fields normal : Attributes)
    (hquery : w.newQuery "node".toList ("role:".toList ++ name) = .ok query)
    (hdo : w.queryDo { query with Rows := 1, SortBy := "name".toList } = .ok result)
    (htotal : result.Total ≠ 0)
    (hrow : result.Rows.head? = some (.object fields))
    (hnormal : mapIndex fields "normal".toList = .object normal)
    (hattr : assertString (mapIndex normal config.ipAttribute) = none) :
    lookupRole w config args k dst (name ++ ".role".toList) port =
      ⟨[.NewQuery "node".toList ("role:".toList ++ name),
          .QueryDo { query with Rows := 1, SortBy := "name".toList }],
        .fatal "No ip address could be found for node.".toList⟩ := by
  unfold lookupRole
  have h0 : (result.Total == 0) = false := by simpa using htotal
  simp only [take_role, hquery, hdo, h0, hrow, assertMap, hnormal, hattr]
  rfl

end ChefSSH
